import Mathlib

/-!
Verification of the XYZ da Vinci mini-maker toolkit core
(`XYZDaVinciPlugin/XYZFileConverter.py` and `XYZDaVinciPlugin/XYZProtocol.py`).

Text is modelled as `List Char`; bytes as `List Nat` (values `< 256` where it
matters, with arithmetic `% 2 ^ 32` made explicit in header fields).  External
primitives that the Python code calls (the AES cipher from pycryptodome and
Python's UTF-8 codec) are abstracted as function parameters whose contracts
(inverse, length preservation) appear as explicit hypotheses; everything that
is code of this repository is translated directly from the source.
-/

namespace XYZ

/-- Python's whitespace set as used by `str.strip` / `str.isspace`
(code points Python classifies as whitespace). -/
def pyIsSpace (c : Char) : Bool :=
  c.toNat == 9 || c.toNat == 10 || c.toNat == 11 || c.toNat == 12 ||
  c.toNat == 13 || (28 ≤ c.toNat && c.toNat ≤ 32) || c.toNat == 133 ||
  c.toNat == 160 || c.toNat == 0x1680 ||
  (0x2000 ≤ c.toNat && c.toNat ≤ 0x200a) || c.toNat == 0x2028 ||
  c.toNat == 0x2029 || c.toNat == 0x202f || c.toNat == 0x205f ||
  c.toNat == 0x3000

/-- Line-boundary characters of Python `str.splitlines`
(the `\r\n` pair is handled separately by `splitlines`). -/
def isLineBound (c : Char) : Bool :=
  c.toNat == 10 || c.toNat == 11 || c.toNat == 12 || c.toNat == 13 ||
  c.toNat == 28 || c.toNat == 29 || c.toNat == 30 || c.toNat == 133 ||
  c.toNat == 0x2028 || c.toNat == 0x2029

/-- Python `str.splitlines` on a character list. -/
def splitlines : List Char → List (List Char)
  | [] => []
  | '\r' :: '\n' :: rest2 => [] :: splitlines rest2
  | c :: rest =>
    if isLineBound c then [] :: splitlines rest
    else
      match splitlines rest with
      | [] => [[c]]
      | l :: ls => (c :: l) :: ls

/-- Drop trailing whitespace (the right half of Python `str.strip`). -/
def dropTrailWs : List Char → List Char
  | [] => []
  | c :: t =>
    let r := dropTrailWs t
    if r.isEmpty && pyIsSpace c then [] else c :: r

/-- Python `str.strip` (no argument): remove leading and trailing whitespace. -/
def pyStrip (l : List Char) : List Char :=
  dropTrailWs (l.dropWhile pyIsSpace)

/-- Python `str.startswith` on character lists. -/
def leadsWith : List Char → List Char → Bool
  | [], _ => true
  | _ :: _, [] => false
  | a :: as, b :: bs => a == b && leadsWith as bs

/-- Python substring containment (`needle in hay`). -/
def hasSub (needle : List Char) : List Char → Bool
  | [] => needle.isEmpty
  | c :: rest => leadsWith needle (c :: rest) || hasSub needle rest

/-- ASCII lower-casing of a character (`str.lower` restricted to ASCII). -/
def asciiLower (c : Char) : Char :=
  if 65 ≤ c.toNat && c.toNat ≤ 90 then Char.ofNat (c.toNat + 32) else c

/-- ASCII lower-casing of a character list. -/
def lowerL (l : List Char) : List Char := l.map asciiLower

/-- Decimal digit character. -/
def digitChar (d : Nat) : Char := Char.ofNat (48 + d)

/-- Auxiliary decimal printer (structural recursion on a fuel argument that
bounds the number of digits; accumulator holds already-emitted low digits). -/
def natToDecAux : Nat → Nat → List Char → List Char
  | 0, _, acc => acc
  | _ + 1, 0, acc => acc
  | fuel + 1, n + 1, acc =>
    natToDecAux fuel ((n + 1) / 10) (digitChar ((n + 1) % 10) :: acc)

/-- Decimal rendering of a natural number (Python `str(n)` for `n ≥ 0`). -/
def natToDec (n : Nat) : List Char :=
  if n = 0 then ['0'] else natToDecAux n n []

/-! ## The G-code preprocessor (`XYZFileConverter._preprocess_gcode`) -/

/-- The needle of the header-detection scan: `"; machine"`. -/
def mNeedle : List Char := "; machine".toList

/-- `"; machine" in line.lower()` for one raw line. -/
def hasMachineLine (l : List Char) : Bool := hasSub mNeedle (lowerL l)

/-- The per-line `G0` → `G1` rewrite of `_preprocess_gcode` applied to an
already-stripped line: if it starts with `"G0 "` or `"G0\t"` the first two
characters become `"G1"`, if it is exactly `"G0"` it becomes `"G1"`. -/
def g0fix (l : List Char) : List Char :=
  if leadsWith "G0 ".toList l || leadsWith "G0\t".toList l then
    "G1".toList ++ l.drop 2
  else if l == "G0".toList then "G1".toList
  else l

/-- Processing of one line of the loop body: strip, then the `G0` rewrite. -/
def procLine (l : List Char) : List Char := g0fix (pyStrip l)

/-- The seven injected XYZ header comment lines plus the blank line.
`filamentStr` stands for Python's `f"{filament_mm:.1f}"` rendering (floating
point formatting is abstracted as the already-rendered string). -/
def xyzHeaderLines (model : List Char) (printTime : Nat)
    (filamentStr : List Char) : List (List Char) :=
  [ "; machine = ".toList ++ model,
    "; print_time = ".toList ++ natToDec printTime,
    "; total_filament = ".toList ++ filamentStr,
    "; nozzle_diameter = 0.4".toList,
    "; layer_height = 0.2".toList,
    "; filament_diameter = 1.75".toList,
    "; filament_type = PLA".toList,
    [] ]

/-- `"\n".join(result)`. -/
def joinNL : List (List Char) → List Char
  | [] => []
  | [l] => l
  | l :: ls => l ++ '\n' :: joinNL ls

/-- The list of result lines built by `_preprocess_gcode` before joining. -/
def preprocessLines (model : List Char) (printTime : Nat)
    (filamentStr : List Char) (gcode : List Char) : List (List Char) :=
  let lines := splitlines gcode
  let hasMachine := (lines.take 50).any hasMachineLine
  let procd := lines.map procLine
  if hasMachine then procd
  else xyzHeaderLines model printTime filamentStr ++ procd

/-- `XYZFileConverter._preprocess_gcode`: inject the XYZ header comments when
no `"; machine"` line is found in the first 50 lines, strip every line and
rewrite leading `G0` tokens to `G1`, join with `"\n"` and append a final
newline. -/
def preprocessGcode (model : List Char) (printTime : Nat)
    (filamentStr : List Char) (gcode : List Char) : List Char :=
  joinNL (preprocessLines model printTime filamentStr gcode) ++ ['\n']

/-! ## Print-info extraction (`XYZFileConverter.extract_print_info`)

The regular expressions of the source are transcribed as recursive character
matchers.  `\d` and `[a-zA-Z]` are modelled over ASCII; `float()` parsing of a
`[\d.]+` group is modelled over `ℚ` (`none` when Python would raise
`ValueError`). -/

/-- Skip a run of whitespace (`\s*`). -/
def skipWs (l : List Char) : List Char := l.dropWhile pyIsSpace

/-- Case-insensitive literal match; returns the rest after the literal. -/
def matchLitCI : List Char → List Char → Option (List Char)
  | [], l => some l
  | _ :: _, [] => none
  | p :: ps, c :: cs =>
    if asciiLower c == asciiLower p then matchLitCI ps cs else none

/-- Value of a decimal digit string. -/
def decToNat (l : List Char) : Nat :=
  l.foldl (fun a c => a * 10 + (c.toNat - 48)) 0

/-- A character of the `[\d.]` class. -/
def isFloatChar (c : Char) : Bool := c.isDigit || c == '.'

/-- Python `float()` on a `[\d.]+` group: at most one dot and at least one
digit, value over `ℚ`; `none` models the `ValueError`. -/
def pyFloatQ (l : List Char) : Option ℚ :=
  let intPart := l.takeWhile Char.isDigit
  let rest := l.dropWhile Char.isDigit
  match rest with
  | [] => if intPart.isEmpty then none else some (decToNat intPart)
  | '.' :: frac =>
    if frac.all Char.isDigit then
      if intPart.isEmpty && frac.isEmpty then none
      else some ((decToNat intPart : ℚ) + (decToNat frac : ℚ) / ((10 : ℚ) ^ frac.length))
    else none
  | _ => none

/-- `re.match(r';\s*TIME\s*[:=]\s*(\d+)', line, re.IGNORECASE)`: the matched
group as a number. -/
def matchTimePat (l : List Char) : Option Nat :=
  match l with
  | ';' :: r =>
    match matchLitCI "time".toList (skipWs r) with
    | none => none
    | some r2 =>
      match skipWs r2 with
      | c :: r3 =>
        if c == ':' || c == '=' then
          let ds := (skipWs r3).takeWhile Char.isDigit
          if ds.isEmpty then none else some (decToNat ds)
        else none
      | [] => none
  | _ => none

/-- Rest of the input after the first `'='` (the `.*?=` part of the
PrusaSlicer pattern). -/
def afterFirstEq : List Char → Option (List Char)
  | [] => none
  | '=' :: r => some r
  | _ :: r => afterFirstEq r

/-- `re.search(r'(\d+)\s*<u>', s)`: value of the first digit run that is
followed by optional whitespace and the (case-sensitive) unit letter. -/
def searchNumUnit (u : Char) : List Char → Option Nat
  | [] => none
  | c :: rest =>
    if c.isDigit then
      let ds := (c :: rest).takeWhile Char.isDigit
      match skipWs ((c :: rest).dropWhile Char.isDigit) with
      | u2 :: _ => if u2 == u then some (decToNat ds) else searchNumUnit u rest
      | [] => searchNumUnit u rest
    else searchNumUnit u rest

/-- `re.match(r';\s*estimated printing time.*?=\s*(.*)', line, re.IGNORECASE)`
followed by the `h`/`m`/`s` component searches; the summed seconds. -/
def matchEstPat (l : List Char) : Option Nat :=
  match l with
  | ';' :: r =>
    match matchLitCI "estimated printing time".toList (skipWs r) with
    | none => none
    | some r2 =>
      match afterFirstEq r2 with
      | none => none
      | some r3 =>
        let ts := skipWs r3
        some ((searchNumUnit 'h' ts).getD 0 * 3600 +
              (searchNumUnit 'm' ts).getD 0 * 60 +
              (searchNumUnit 's' ts).getD 0)
  | _ => none

/-- `re.match(r';\s*(?:Filament\s*used|MATERIAL)\s*[:=]\s*([\d.]+)\s*(mm|m)?',
line, re.IGNORECASE)`: `none` = no match, `some none` = match but `float()`
raises, `some (some v)` = filament value with the unit factor applied. -/
def matchFilamentPat (l : List Char) : Option (Option ℚ) :=
  match l with
  | ';' :: r =>
    let r1 := skipWs r
    let kwF :=
      match matchLitCI "filament".toList r1 with
      | some r2 => matchLitCI "used".toList (skipWs r2)
      | none => none
    let kw := match kwF with
      | some r2 => some r2
      | none => matchLitCI "material".toList r1
    match kw with
    | none => none
    | some r2 =>
      match skipWs r2 with
      | c :: r4 =>
        if c == ':' || c == '=' then
          let r5 := skipWs r4
          let ds := r5.takeWhile isFloatChar
          if ds.isEmpty then none
          else
            let r6 := skipWs (r5.dropWhile isFloatChar)
            let isUnitMM := (matchLitCI "mm".toList r6).isSome
            let isUnitM := !isUnitMM && (matchLitCI "m".toList r6).isSome
            match pyFloatQ ds with
            | none => some none
            | some v => some (some (if isUnitM then v * 1000 else v))
        else none
      | [] => none
  | _ => none

/-- A character of the `[_\s]` class. -/
def isUsOrWs (c : Char) : Bool := c == '_' || pyIsSpace c

/-- `re.match(r';\s*LAYER[_\s]*COUNT\s*[:=]\s*(\d+)', line, re.IGNORECASE)`. -/
def matchLayerCountPat (l : List Char) : Option Nat :=
  match l with
  | ';' :: r =>
    match matchLitCI "layer".toList (skipWs r) with
    | none => none
    | some r2 =>
      match matchLitCI "count".toList (r2.dropWhile isUsOrWs) with
      | none => none
      | some r3 =>
        match skipWs r3 with
        | c :: r4 =>
          if c == ':' || c == '=' then
            let ds := (skipWs r4).takeWhile Char.isDigit
            if ds.isEmpty then none else some (decToNat ds)
          else none
        | [] => none
  | _ => none

/-- `re.match(r';\s*LAYER\s*[:=]\s*\d+', line, re.IGNORECASE)`. -/
def matchLayerPat (l : List Char) : Bool :=
  match l with
  | ';' :: r =>
    match matchLitCI "layer".toList (skipWs r) with
    | none => false
    | some r2 =>
      match skipWs r2 with
      | c :: r3 =>
        (c == ':' || c == '=') && !((skipWs r3).takeWhile Char.isDigit).isEmpty
      | [] => false
  | _ => false

/-- The result record of `extract_print_info`. -/
structure PrintInfo where
  print_time_sec : Nat
  filament_mm : ℚ
  layer_count : Nat
deriving DecidableEq, Repr

/-- The mutable triple threaded through the scanning loop. -/
structure ExtractState where
  time : Nat
  fil : ℚ
  layers : Nat
deriving DecidableEq, Repr

/-- One iteration of the scanning loop of `extract_print_info`
(`none` = the uncaught `ValueError` from `float()` on the filament group). -/
def extractLine (st : ExtractState) (line : List Char) : Option ExtractState :=
  let ls := pyStrip line
  match matchTimePat ls with
  | some t => some { st with time := t }
  | none =>
    match matchEstPat ls with
    | some t => some { st with time := t }
    | none =>
      match matchFilamentPat ls with
      | some none => none
      | some (some v) => some { st with fil := v }
      | none =>
        match matchLayerCountPat ls with
        | some n => some { st with layers := n }
        | none =>
          if matchLayerPat ls then some { st with layers := st.layers + 1 }
          else some st

/-- Fallback G-move count: lines whose stripped form starts with
`"G1 "` or `"G0 "`. -/
def g1MoveCount (gcode : List Char) : Nat :=
  ((splitlines gcode).filter (fun l =>
    leadsWith "G1 ".toList (pyStrip l) || leadsWith "G0 ".toList (pyStrip l))).length

/-- `re.search(r'E([\d.]+)', line)`: first `E` followed by a `[\d.]+` group;
`some none` = group found but `float()` raises (caught in the source). -/
def searchEVal : List Char → Option (Option ℚ)
  | [] => none
  | 'E' :: r =>
    let ds := r.takeWhile isFloatChar
    if ds.isEmpty then searchEVal r else some (pyFloatQ ds)
  | _ :: r => searchEVal r

/-- Fallback filament estimate: maximum parsed `E` value over all lines. -/
def maxEVal (gcode : List Char) : ℚ :=
  (splitlines gcode).foldl (fun mx l =>
    match searchEVal l with
    | some (some v) => if v > mx then v else mx
    | _ => mx) 0

/-- `XYZFileConverter.extract_print_info` (`none` models the uncaught
`ValueError` of `float()` on a malformed filament group). -/
def extractPrintInfo (gcode : List Char) : Option PrintInfo :=
  match (splitlines gcode).foldlM extractLine ⟨0, 0, 0⟩ with
  | none => none
  | some st =>
    let time := if st.time = 0 then max 60 (g1MoveCount gcode / 10) else st.time
    let fil :=
      if st.fil = 0 then
        let mx := maxEVal gcode
        if mx > 0 then mx else 1000
      else st.fil
    some ⟨time, fil, st.layers⟩

/-! ## Status parsing (`XYZProtocol.query_status`) -/

/-- ASCII letter test (`[a-zA-Z]`). -/
def isAsciiLetter (c : Char) : Bool :=
  (65 ≤ c.toNat && c.toNat ≤ 90) || (97 ≤ c.toNat && c.toNat ≤ 122)

/-- `re.split(r'\.(?=[a-zA-Z]:)', line)`: a `.` separates segments only when
immediately followed by a letter and a colon. -/
def splitSegsAux : List Char → List Char → List (List Char)
  | acc, [] => [acc.reverse]
  | acc, '.' :: rest =>
    match rest with
    | a :: ':' :: _ =>
      if isAsciiLetter a then acc.reverse :: splitSegsAux [] rest
      else splitSegsAux ('.' :: acc) rest
    | _ => splitSegsAux ('.' :: acc) rest
  | acc, c :: rest => splitSegsAux (c :: acc) rest

/-- The segment splitter of `query_status`. -/
def splitSegs (l : List Char) : List (List Char) := splitSegsAux [] l

/-- Python `str.split(',')`. -/
def splitCommaAux : List Char → List Char → List (List Char)
  | acc, [] => [acc.reverse]
  | acc, ',' :: rest => acc.reverse :: splitCommaAux [] rest
  | acc, c :: rest => splitCommaAux (c :: acc) rest

/-- Python `str.split(',')`. -/
def splitComma (l : List Char) : List (List Char) := splitCommaAux [] l

/-- Python `int()` on a string: strip, optional sign, decimal digits
(`none` models the `ValueError`). -/
def pyInt (l : List Char) : Option Int :=
  match pyStrip l with
  | '-' :: ds =>
    if !ds.isEmpty && ds.all Char.isDigit then some (-(decToNat ds : Int)) else none
  | '+' :: ds =>
    if !ds.isEmpty && ds.all Char.isDigit then some ((decToNat ds : Int)) else none
  | ds =>
    if !ds.isEmpty && ds.all Char.isDigit then some ((decToNat ds : Int)) else none

/-- The printer database (`PRINTER_DB`), restricted to the name field used by
`query_status`. -/
def printerDB : List (List Char × List Char) :=
  [("dv1MX0A000".toList, "da Vinci miniMaker".toList),
   ("dv1MW0A000".toList, "da Vinci mini w".toList),
   ("dv1MW0B000".toList, "da Vinci mini wA".toList),
   ("dv1MW0C000".toList, "da Vinci mini w+".toList),
   ("dv1NX0A000".toList, "da Vinci nano".toList),
   ("dv1NW0A000".toList, "da Vinci nano w".toList),
   ("dv1JP0A000".toList, "da Vinci Jr. 1.0".toList),
   ("dv1JW0A000".toList, "da Vinci Jr. 1.0W".toList),
   ("dv1JA0A000".toList, "da Vinci Jr. 1.0A".toList),
   ("dv1JS0A000".toList, "da Vinci Jr. 1.0 3in1".toList),
   ("dv1JO0A000".toList, "da Vinci Jr. 1.0 3in1 (Open)".toList),
   ("dv1JPWA000".toList, "da Vinci Jr. 1.0 Pro".toList),
   ("dv1JWWA000".toList, "da Vinci Jr. 1.0W Pro".toList),
   ("dv2JX0A000".toList, "da Vinci Jr. 2.0 Mix".toList),
   ("dv1PA0A000".toList, "da Vinci 1.0 Pro".toList),
   ("dv1PS0A000".toList, "da Vinci 1.0 Pro 3in1".toList),
   ("dv1SA0A000".toList, "da Vinci 1.0 Super".toList)]

/-- Name lookup in the printer database. -/
def dbLookup (m : List Char) : Option (List Char) :=
  (printerDB.find? (fun p => p.1 == m)).map Prod.snd

/-- `XYZPrinterStatus` with its constructor defaults. -/
structure PrinterStatus where
  model_number : List Char := []
  machine_name : List Char := []
  serial_number : List Char := []
  firmware_version : List Char := []
  state : Int := 0
  sub_state : Int := 0
  extruder_temp : Int := 0
  extruder_target : Int := 0
  bed_temp : Int := 0
  bed_target : Int := 0
  print_pct : Int := 0
  print_elapsed_min : Int := 0
  print_remaining_min : Int := 0
  error_code : Int := 0
  filament_remaining_mm : Int := 0
  z_offset : Int := 0
  auto_level : Bool := false
deriving DecidableEq, Repr

/-- The all-defaults status value. -/
def initStatus : PrinterStatus := {}

/-- Parse one `<key>:<value>` segment into the status record.  A failing
`int()` inside a segment keeps the updates already made by that segment
(the `try` block of the source wraps the whole segment). -/
def parseSeg (st : PrinterStatus) (seg0 : List Char) : PrinterStatus :=
  let seg := pyStrip seg0
  if seg.length < 2 then st
  else if seg.getD 1 ' ' != ':' then st
  else
    let key := seg.getD 0 ' '
    let val := seg.drop 2
    if key == 'j' then
      let parts := splitComma val
      match pyInt (parts.getD 0 []) with
      | none => st
      | some s0 =>
        let st1 := { st with state := s0 }
        if parts.length > 1 then
          match pyInt (parts.getD 1 []) with
          | none => st1
          | some s1 => { st1 with sub_state := s1 }
        else st1
    else if key == 't' then
      let parts := splitComma val
      if parts.length ≥ 2 then
        match pyInt (parts.getD 1 []) with
        | none => st
        | some v1 =>
          let st1 := { st with extruder_temp := v1 }
          if parts.length ≥ 3 then
            match pyInt (parts.getD 2 []) with
            | none => st1
            | some v2 =>
              let st2 := { st1 with bed_temp := v2 }
              if parts.length ≥ 4 then
                match pyInt (parts.getD 3 []) with
                | none => st2
                | some v3 => { st2 with extruder_target := v3 }
              else st2
          else st1
      else st
    else if key == 'n' then
      let m := pyStrip val
      match dbLookup m with
      | some nm => { st with model_number := m, machine_name := nm }
      | none => { st with model_number := m }
    else if key == 's' then { st with serial_number := pyStrip val }
    else if key == 'v' then { st with firmware_version := pyStrip val }
    else if key == 'e' then
      match pyInt val with
      | none => st
      | some v => { st with error_code := v }
    else if key == 'd' then
      let parts := splitComma val
      match pyInt (parts.getD 0 []) with
      | none => st
      | some v0 =>
        let st1 := { st with print_pct := v0 }
        if parts.length ≥ 2 then
          match pyInt (parts.getD 1 []) with
          | none => st1
          | some v1 =>
            let st2 := { st1 with print_elapsed_min := v1 }
            if parts.length ≥ 3 then
              match pyInt (parts.getD 2 []) with
              | none => st2
              | some v2 => { st2 with print_remaining_min := v2 }
            else st2
        else st1
    else if key == 'f' then
      match pyInt ((splitComma val).getD 0 []) with
      | none => st
      | some v => { st with filament_remaining_mm := v }
    else if key == 'o' then
      match pyInt val with
      | none => st
      | some v => { st with z_offset := v }
    else if key == 'l' then { st with auto_level := pyStrip val == "1".toList }
    else st

/-- Process one response line of `query_status`: strip, skip when empty,
split into segments and fold them. -/
def processStatusLine (st : PrinterStatus) (line : List Char) : PrinterStatus :=
  let l := pyStrip line
  if l.isEmpty then st
  else (splitSegs l).foldl parseSeg st

/-- The response interpretation of `query_status`. -/
def parseStatusResponse (resp : List Char) : PrinterStatus :=
  (splitlines resp).foldl processStatusLine initStatus

/-! ## Command surface (`XYZProtocol` control commands) -/

/-- `"ok" in resp.lower() or "E0" not in resp` — the success test of the
`action=`-family commands. -/
def respOkOrNoE0 (resp : List Char) : Bool :=
  hasSub "ok".toList (lowerL resp) || !hasSub "E0".toList resp

/-- `"ok" in resp.lower()` — the success test of the on/off `config=`
commands. -/
def respOkOnly (resp : List Char) : Bool :=
  hasSub "ok".toList (lowerL resp)

/-- `home` success as a function of the response. -/
def homeSuccess (resp : List Char) : Bool :=
  hasSub "ok".toList (lowerL resp) || !hasSub "E0".toList resp

/-- `load_filament_start` success. -/
def loadFilamentStartSuccess (resp : List Char) : Bool :=
  hasSub "ok".toList (lowerL resp) || !hasSub "E0".toList resp

/-- `load_filament_cancel` success. -/
def loadFilamentCancelSuccess (resp : List Char) : Bool :=
  hasSub "ok".toList (lowerL resp) || !hasSub "E0".toList resp

/-- `unload_filament_start` success. -/
def unloadFilamentStartSuccess (resp : List Char) : Bool :=
  hasSub "ok".toList (lowerL resp) || !hasSub "E0".toList resp

/-- `unload_filament_cancel` success. -/
def unloadFilamentCancelSuccess (resp : List Char) : Bool :=
  hasSub "ok".toList (lowerL resp) || !hasSub "E0".toList resp

/-- `cancel_print` success. -/
def cancelPrintSuccess (resp : List Char) : Bool :=
  hasSub "ok".toList (lowerL resp) || !hasSub "E0".toList resp

/-- `pause_print` success. -/
def pausePrintSuccess (resp : List Char) : Bool :=
  hasSub "ok".toList (lowerL resp) || !hasSub "E0".toList resp

/-- `resume_print` success. -/
def resumePrintSuccess (resp : List Char) : Bool :=
  hasSub "ok".toList (lowerL resp) || !hasSub "E0".toList resp

/-- `calibrate_start` success. -/
def calibrateStartSuccess (resp : List Char) : Bool :=
  hasSub "ok".toList (lowerL resp) || !hasSub "E0".toList resp

/-- `clean_nozzle_start` success. -/
def cleanNozzleStartSuccess (resp : List Char) : Bool :=
  hasSub "ok".toList (lowerL resp) || !hasSub "E0".toList resp

/-- `clean_nozzle_cancel` success. -/
def cleanNozzleCancelSuccess (resp : List Char) : Bool :=
  hasSub "ok".toList (lowerL resp) || !hasSub "E0".toList resp

/-- `jog` success. -/
def jogSuccess (resp : List Char) : Bool :=
  hasSub "ok".toList (lowerL resp) || !hasSub "E0".toList resp

/-- `z_offset_set` success. -/
def zOffsetSetSuccess (resp : List Char) : Bool :=
  hasSub "ok".toList (lowerL resp) || !hasSub "E0".toList resp

/-- `auto_level_on` success: `"ok" in resp.lower()` only. -/
def autoLevelOnSuccess (resp : List Char) : Bool :=
  hasSub "ok".toList (lowerL resp)

/-- `auto_level_off` success: `"ok" in resp.lower()` only. -/
def autoLevelOffSuccess (resp : List Char) : Bool :=
  hasSub "ok".toList (lowerL resp)

/-- `buzzer_on` success: `"ok" in resp.lower()` only. -/
def buzzerOnSuccess (resp : List Char) : Bool :=
  hasSub "ok".toList (lowerL resp)

/-- `buzzer_off` success: `"ok" in resp.lower()` only. -/
def buzzerOffSuccess (resp : List Char) : Bool :=
  hasSub "ok".toList (lowerL resp)

/-! ## Upload engine (`XYZProtocol.upload_file`) -/

/-- 4-byte big-endian rendering of a 32-bit value (`struct.pack(">I", n)`,
faithful for `n < 2 ^ 32`; the source raises `struct.error` beyond). -/
def toBE32 (n : Nat) : List Nat :=
  [n / 2 ^ 24 % 256, n / 2 ^ 16 % 256, n / 2 ^ 8 % 256, n % 256]

/-- The chunking loop of `upload_file`: one frame per 8192-byte chunk,
`[4B block index BE][4B chunk length BE][chunk][4 zero bytes]`.  Structural
recursion on a fuel bounded by the data length. -/
def uploadFramesAux : Nat → List Nat → Nat → List (List Nat)
  | 0, _, _ => []
  | fuel + 1, d, blockNum =>
    if d.isEmpty then []
    else
      (toBE32 blockNum ++ toBE32 (d.take 8192).length ++ d.take 8192 ++ [0, 0, 0, 0]) ::
        uploadFramesAux fuel (d.drop 8192) (blockNum + 1)

/-- The data frames `upload_file` writes for a payload. -/
def uploadFrames (d : List Nat) : List (List Nat) := uploadFramesAux d.length d 0

/-- An event on the serial wire: a text command line or a binary frame. -/
inductive WireEvent where
  | cmd (text : List Char)
  | frame (bytes : List Nat)
deriving DecidableEq, Repr

/-- The block loop of `upload_file` as wire events: returns the frames
written, the number of progress-callback invocations, and whether every
written block was acknowledged.  `acks i` is the printer's answer to block
`i`. -/
def uploadBlocksAux : Nat → List Nat → Nat → (Nat → Bool) → List WireEvent × Nat × Bool
  | 0, _, _, _ => ([], 0, true)
  | fuel + 1, d, blockNum, acks =>
    if d.isEmpty then ([], 0, true)
    else
      let frame := toBE32 blockNum ++ toBE32 (d.take 8192).length ++ d.take 8192 ++ [0, 0, 0, 0]
      if acks blockNum then
        let rest := uploadBlocksAux fuel (d.drop 8192) (blockNum + 1) acks
        (WireEvent.frame frame :: rest.1, rest.2.1 + 1, rest.2.2)
      else ([WireEvent.frame frame], 0, false)

/-- `XYZProtocol.upload_file` as a wire-event trace: the initiation line
`XYZv3/upload=<filename>,<size>`, the acknowledged data frames, and the
`XYZv3/uploadDidFinish` line.  Returns (events, progress invocations,
result).  A missing final acknowledgment is only logged, so `ackFinish`
does not influence the result. -/
def uploadFileWire (connected : Bool) (filename : List Char) (data : List Nat)
    (ackInit : Bool) (acks : Nat → Bool) (ackFinish : Bool) :
    List WireEvent × Nat × Bool :=
  if !connected then ([], 0, false)
  else
    let initCmd := WireEvent.cmd
      ("XYZv3/upload=".toList ++ filename ++ [','] ++ natToDec data.length)
    if !ackInit then ([initCmd], 0, false)
    else
      let blocks := uploadBlocksAux data.length data 0 acks
      if !blocks.2.2 then (initCmd :: blocks.1, blocks.2.1, false)
      else
        let _ := ackFinish
        (initCmd :: blocks.1 ++ [WireEvent.cmd "XYZv3/uploadDidFinish".toList],
         blocks.2.1, true)

/-! ## The `.3w` container codec (`XYZFileConverter`)

The AES primitives of pycryptodome, the zip packer and Python's UTF-8 codec
are external to the repository; they enter the embedding as the fields of
`ConvCfg`, and the theorems carry their contracts (inverse and length
preservation) as hypotheses. -/

/-- External primitives used by the converter. -/
structure ConvCfg where
  /-- AES-256-ECB encryption of a 16-byte-aligned buffer. -/
  aesEncEcb : List Nat → List Nat
  /-- AES-256-ECB decryption. -/
  aesDecEcb : List Nat → List Nat
  /-- AES-128-CBC (zero IV) encryption. -/
  aesEncCbc : List Nat → List Nat
  /-- AES-128-CBC (zero IV) decryption. -/
  aesDecCbc : List Nat → List Nat
  /-- Zip-wrap the body as the single entry `model.gcode`. -/
  zipPack : List Nat → List Nat
  /-- Attempt to unwrap a zip archive (`none` = `BadZipFile` or no entries). -/
  tryUnzip : List Nat → Option (List Nat)
  /-- Python `str.encode("utf-8")`. -/
  encodeUtf8 : List Char → List Nat
  /-- Python `bytes.decode("utf-8", errors="replace")`. -/
  decodeUtf8 : List Nat → List Char

/-- The models of `_ECB_MODELS` (AES-256-ECB, non-zip body). -/
def ecbModels : List (List Char) :=
  ["dv1MX0A000".toList, "dv1MW0A000".toList, "dv1MW0B000".toList,
   "dv1MW0C000".toList, "dv1NX0A000".toList, "dv1NW0A000".toList]

/-- `self.use_ecb = model_number in self._ECB_MODELS`. -/
def useEcbOf (model : List Char) : Bool := ecbModels.contains model

/-- `XYZFileConverter._pkcs7_pad` with block size 16 (the `if padding_len == 0`
branch of the source is dead: `16 - len % 16` is already in `1..16`). -/
def pkcs7Pad (data : List Nat) : List Nat :=
  let p0 := 16 - data.length % 16
  let padLen := if p0 = 0 then 16 else p0
  data ++ List.replicate padLen padLen

/-- ASCII encoding of a model identifier (`str.encode("ascii")`, faithful for
ASCII strings, which all catalogued model numbers are). -/
def asciiBytes (l : List Char) : List Nat := l.map Char.toNat

/-- The 16-byte magic `b"3DPFNKG00000000\x00"`. -/
def magic3w : List Nat := "3DPFNKG00000000".toList.map Char.toNat ++ [0]

/-- In-place write of `bytearray` slice assignment / `struct.pack_into`
(faithful when `pos + v.length ≤ l.length`). -/
def writeAt (l : List Nat) (pos : Nat) (v : List Nat) : List Nat :=
  l.take pos ++ v ++ l.drop (pos + v.length)

/-- Little-endian 4-byte rendering of a value `< 2 ^ 32`. -/
def le32 (n : Nat) : List Nat :=
  [n % 256, n / 2 ^ 8 % 256, n / 2 ^ 16 % 256, n / 2 ^ 24 % 256]

/-- `struct.pack("<I", n)`: `none` models the `struct.error` raised when the
value does not fit in 32 bits. -/
def packLE32 (n : Nat) : Option (List Nat) :=
  if n < 2 ^ 32 then some (le32 n) else none

/-- `struct.unpack_from("<I", l, o)` (in-range reads; `getD` default 0). -/
def readLE32 (l : List Nat) (o : Nat) : Nat :=
  l.getD o 0 + 2 ^ 8 * l.getD (o + 1) 0 + 2 ^ 16 * l.getD (o + 2) 0 +
    2 ^ 24 * l.getD (o + 3) 0

/-- `XYZFileConverter._build_header`: 8192 zero bytes with the magic, format
version 2, model id, body offset/sizes, print time, filament and encryption
type written in.  `none` models `struct.error` on an out-of-range field. -/
def buildHeader (modelBytes : List Nat) (useEcb : Bool)
    (bodySize encryptedSize printTime filamentInt : Nat) : Option (List Nat) :=
  let h0 := List.replicate 8192 0
  let h1 := writeAt h0 0 magic3w
  let h2 := writeAt h1 16 (le32 2)
  let h3 := writeAt h2 32 (modelBytes.take 32)
  match packLE32 8192, packLE32 encryptedSize, packLE32 bodySize,
      packLE32 printTime, packLE32 filamentInt with
  | some b80, some b84, some b88, some b96, some b100 =>
    let h4 := writeAt h3 80 b80
    let h5 := writeAt h4 84 b84
    let h6 := writeAt h5 88 b88
    let h7 := writeAt h6 96 b96
    let h8 := writeAt h7 100 b100
    some (writeAt h8 104 (le32 (if useEcb then 2 else 1)))
  | _, _, _, _, _ => none

/-- The ECB cipher path of the converter applied to the encoded body:
encrypt (`_encrypt_ecb`), build the header, concatenate. -/
def encodeEcbContainer (cfg : ConvCfg) (modelBytes : List Nat)
    (printTime filamentInt : Nat) (bodyBytes : List Nat) : Option (List Nat) :=
  let encrypted := cfg.aesEncEcb (pkcs7Pad bodyBytes)
  match buildHeader modelBytes true bodyBytes.length encrypted.length
      printTime filamentInt with
  | none => none
  | some header => some (header ++ encrypted)

/-- The CBC/zip cipher path (`_encrypt_cbc_zip` plus header). -/
def encodeCbcContainer (cfg : ConvCfg) (modelBytes : List Nat)
    (printTime filamentInt : Nat) (bodyBytes : List Nat) : Option (List Nat) :=
  let encrypted := cfg.aesEncCbc (pkcs7Pad (cfg.zipPack bodyBytes))
  match buildHeader modelBytes false bodyBytes.length encrypted.length
      printTime filamentInt with
  | none => none
  | some header => some (header ++ encrypted)

/-- `XYZFileConverter.convert_gcode_to_3w`: preprocess, encode to bytes,
encrypt per cipher class, build header, concatenate.  `filamentStr` is the
`f"{filament_mm:.1f}"` rendering and `filamentInt` the `int(filament_mm)`
truncation (float formatting abstracted as already-rendered values). -/
def convertGcodeTo3w (cfg : ConvCfg) (model : List Char) (printTime : Nat)
    (filamentStr : List Char) (filamentInt : Nat) (gcode : List Char) :
    Option (List Nat) :=
  let processed := preprocessGcode model printTime filamentStr gcode
  let bodyBytes := cfg.encodeUtf8 processed
  if useEcbOf model then
    encodeEcbContainer cfg (asciiBytes model) printTime filamentInt bodyBytes
  else
    encodeCbcContainer cfg (asciiBytes model) printTime filamentInt bodyBytes

/-- The PKCS7 strip of `decrypt_3w_to_gcode`: remove the pad only when the
last byte is in `1..16` and the trailing run matches it. -/
def stripPkcs7 (decrypted : List Nat) : List Nat :=
  match decrypted.getLast? with
  | none => decrypted
  | some padLen =>
    if 0 < padLen && padLen ≤ 16 &&
        (decrypted.drop (decrypted.length - padLen)).all (fun b => b == padLen) then
      decrypted.take (decrypted.length - padLen)
    else decrypted

/-- `XYZFileConverter.decrypt_3w_to_gcode`: reject inputs shorter than 8192
bytes, read the header fields at offsets 80/84/88/104, slice the body,
decrypt per `enc_type` (attempting a zip unwrap on the CBC path), strip the
PKCS7 pad, trim to the original size and decode.  The magic is never
examined. -/
def decrypt3wToGcode (cfg : ConvCfg) (data : List Nat) :
    Except (List Char) (List Char) :=
  if data.length < 8192 then
    Except.error "File too small to be a valid .3w file".toList
  else
    let bodyOffset := readLE32 data 80
    let encryptedSize := readLE32 data 84
    let originalSize := readLE32 data 88
    let encType := readLE32 data 104
    let encrypted := (data.drop bodyOffset).take encryptedSize
    let decrypted :=
      if encType == 2 then cfg.aesDecEcb encrypted
      else if encType == 1 then
        let d := cfg.aesDecCbc encrypted
        match cfg.tryUnzip d with
        | some unz => unz
        | none => d
      else encrypted
    let stripped := stripPkcs7 decrypted
    let trimmed := if originalSize > 0 then stripped.take originalSize else stripped
    Except.ok (cfg.decodeUtf8 trimmed)

/-- The identity instantiation of the external primitives: used to witness
the theorems whose hypotheses are the primitives' contracts. -/
def idCfg : ConvCfg where
  aesEncEcb := id
  aesDecEcb := id
  aesEncCbc := id
  aesDecCbc := id
  zipPack := id
  tryUnzip := fun _ => none
  encodeUtf8 := fun l => l.map Char.toNat
  decodeUtf8 := fun l => l.map Char.ofNat

/-- Non-comment test of a line (`not line.startswith(";")`). -/
def isCommentLine (l : List Char) : Bool := leadsWith ";".toList l

/-- A line begins with a `G0` token in the sense of the preprocessor's
rewrite patterns: prefix `"G0 "` or `"G0\t"`, or the line is exactly `"G0"`. -/
def beginsWithG0Token (l : List Char) : Bool :=
  leadsWith "G0 ".toList l || leadsWith "G0\t".toList l || l == "G0".toList

/-- Proof-side explicit layout of the header produced by `_build_header`:
magic (16), version (4), 12 zero bytes, the model field padded to 48 bytes
up to offset 80, the size fields at 80/84/88, 4 zero bytes, the fields at
96/100/104 and a zero fill to 8192 bytes. -/
def hdrConcat (mbt : List Nat) (bs es pt fi : Nat) (useEcb : Bool) : List Nat :=
  magic3w ++ le32 2 ++ List.replicate 12 0 ++
    (mbt ++ List.replicate (48 - mbt.length) 0) ++ le32 8192 ++ le32 es ++
    le32 bs ++ List.replicate 4 0 ++ le32 pt ++ le32 fi ++
    le32 (if useEcb then 2 else 1) ++ List.replicate 8084 0

/-! # Theorems -/

/-- **C9.** `extract_print_info("")` returns exactly
`print_time_sec = 60`, `filament_mm = 1000`, `layer_count = 0`:
the 60-second floor, the default 1000 mm and a zero layer count. -/
theorem c9_extract_info_empty :
    extractPrintInfo [] = some ⟨60, 1000, 0⟩ := by decide

/-- **C7.** Parsing the status line `v:1.3.5.j:9002,0` with `query_status`'s
segment splitter yields firmware `1.3.5` and state 9002: the splitter cuts at
a `.` only when it is immediately followed by a letter and a colon, keeping
the dots of the firmware version intact. -/
theorem c7_firmware_dot_rule :
    splitSegs "v:1.3.5.j:9002,0".toList = ["v:1.3.5".toList, "j:9002,0".toList] ∧
    (parseStatusResponse "v:1.3.5.j:9002,0".toList).firmware_version = "1.3.5".toList ∧
    (parseStatusResponse "v:1.3.5.j:9002,0".toList).state = 9002 := by decide

/-- **C4, counterexample.** The claim "every command returns success iff the
response contains `ok` (case-insensitive) or lacks an `E0` token" is false:
`buzzer_on` on the response `"hello"` (no `ok`, no `E0`) returns `False`,
while the claimed predicate holds. -/
theorem c4_counterexample :
    buzzerOnSuccess "hello".toList = false ∧
    (hasSub "ok".toList (lowerL "hello".toList) ||
      !hasSub "E0".toList "hello".toList) = true := by decide

/-- **C4, amended.** The `action=`-family commands (home, filament
load/unload and their cancels, cancel, pause, resume, calibrate, clean
nozzle and its cancel, jog) and `z_offset_set` return success iff the
response contains `ok` (case-insensitively) or lacks the substring `E0`;
the four on/off `config=` commands (`auto_level_on/off`, `buzzer_on/off`)
return success iff the response contains `ok` (case-insensitively) alone. -/
theorem c4_command_success_rules (resp : List Char) :
    homeSuccess resp = respOkOrNoE0 resp ∧
    loadFilamentStartSuccess resp = respOkOrNoE0 resp ∧
    loadFilamentCancelSuccess resp = respOkOrNoE0 resp ∧
    unloadFilamentStartSuccess resp = respOkOrNoE0 resp ∧
    unloadFilamentCancelSuccess resp = respOkOrNoE0 resp ∧
    cancelPrintSuccess resp = respOkOrNoE0 resp ∧
    pausePrintSuccess resp = respOkOrNoE0 resp ∧
    resumePrintSuccess resp = respOkOrNoE0 resp ∧
    calibrateStartSuccess resp = respOkOrNoE0 resp ∧
    cleanNozzleStartSuccess resp = respOkOrNoE0 resp ∧
    cleanNozzleCancelSuccess resp = respOkOrNoE0 resp ∧
    jogSuccess resp = respOkOrNoE0 resp ∧
    zOffsetSetSuccess resp = respOkOrNoE0 resp ∧
    autoLevelOnSuccess resp = respOkOnly resp ∧
    autoLevelOffSuccess resp = respOkOnly resp ∧
    buzzerOnSuccess resp = respOkOnly resp ∧
    buzzerOffSuccess resp = respOkOnly resp := by
  refine ⟨rfl, rfl, rfl, rfl, rfl, rfl, rfl, rfl, rfl, rfl, rfl, rfl, rfl,
    rfl, rfl, rfl, rfl⟩

/-- **C10.** `upload_file` on a connected session with an empty payload, with
the initiation acknowledged, sends `XYZv3/upload=<filename>,0`, no data
frames (the chunk loop never runs, so the progress callback is never invoked
and `bytes_sent / total` is never evaluated), then `XYZv3/uploadDidFinish`,
and returns `True` — independently of the finish acknowledgment. -/
theorem c10_upload_empty_payload (filename : List Char) (acks : Nat → Bool)
    (ackFinish : Bool) :
    uploadFileWire true filename [] true acks ackFinish =
      ([WireEvent.cmd ("XYZv3/upload=".toList ++ filename ++ ",0".toList),
        WireEvent.cmd "XYZv3/uploadDidFinish".toList], 0, true) := by
  simp [uploadFileWire, uploadBlocksAux, natToDec, List.append_assoc]

/-- Frame count of the chunking loop: `⌈n / 8192⌉` frames. -/
theorem uploadFramesAux_length (fuel : Nat) :
    ∀ d : List Nat, ∀ b : Nat, d.length ≤ fuel →
      (uploadFramesAux fuel d b).length = (d.length + 8191) / 8192 := by
  induction fuel with
  | zero =>
    intro d b hd
    have : d = [] := List.eq_nil_of_length_eq_zero (Nat.le_zero.mp hd)
    subst this
    simp [uploadFramesAux]
  | succ fuel ih =>
    intro d b hd
    rcases d with _ | ⟨x, t⟩
    · simp [uploadFramesAux]
    · simp only [uploadFramesAux, List.isEmpty_cons, Bool.false_eq_true, if_false]
      rw [List.length_cons, ih ((x :: t).drop 8192) (b + 1) (by simp at hd ⊢; omega)]
      simp only [List.length_drop, List.length_cons]
      omega

/-- Shape of the `i`-th frame of the chunking loop: big-endian block index,
big-endian chunk length, the chunk, four zero bytes. -/
theorem uploadFramesAux_getD (fuel : Nat) :
    ∀ d : List Nat, ∀ b i : Nat, d.length ≤ fuel →
      i < (d.length + 8191) / 8192 →
      (uploadFramesAux fuel d b).getD i [] =
        toBE32 (b + i) ++ toBE32 (min 8192 (d.length - 8192 * i)) ++
          (d.drop (8192 * i)).take 8192 ++ [0, 0, 0, 0] := by
  induction fuel with
  | zero =>
    intro d b i hd hi
    have : d = [] := List.eq_nil_of_length_eq_zero (Nat.le_zero.mp hd)
    subst this
    simp at hi
  | succ fuel ih =>
    intro d b i hd hi
    rcases d with _ | ⟨x, t⟩
    · simp at hi
    · simp only [uploadFramesAux, List.isEmpty_cons, Bool.false_eq_true, if_false]
      rcases i with _ | i
      · simp only [List.getD_cons_zero, Nat.add_zero, Nat.mul_zero, Nat.sub_zero,
          List.drop_zero, List.length_take]
      · have hlen : ((x :: t).drop 8192).length = (x :: t).length - 8192 := by
          simp [List.length_drop]
        have hfuel : ((x :: t).drop 8192).length ≤ fuel := by
          rw [hlen]; simp at hd ⊢; omega
        have hi2 : i < (((x :: t).drop 8192).length + 8191) / 8192 := by
          rw [hlen]
          simp only [List.length_cons] at hi ⊢
          omega
        rw [List.getD_cons_succ, ih ((x :: t).drop 8192) (b + 1) i hfuel hi2]
        rw [List.drop_drop, hlen]
        have h1 : b + 1 + i = b + (i + 1) := by omega
        have h2 : (x :: t).length - 8192 - 8192 * i = (x :: t).length - 8192 * (i + 1) := by
          omega
        have h3 : 8192 + 8192 * i = 8192 * (i + 1) := by ring
        rw [h1, h2, h3]

/-- **C2.** For every non-empty payload of `n` bytes, `upload_file` sends
exactly `⌈n / 8192⌉` data frames; frame `i` is the 4-byte big-endian block
index `i`, the 4-byte big-endian chunk length, the chunk, then 4 zero bytes,
with every chunk 8192 bytes except possibly the last.  In particular an
8192-byte payload yields one 8204-byte frame with index 0, and an 8193-byte
payload yields two frames with indices 0, 1 and chunk lengths 8192, 1.
(The block-count bound `≤ 2 ^ 32` keeps the 4-byte big-endian index
rendering faithful; beyond it the source raises `struct.error`.) -/
theorem c2_upload_frame_shape :
    (∀ d : List Nat, 0 < d.length → (d.length + 8191) / 8192 ≤ 2 ^ 32 →
      (uploadFrames d).length = (d.length + 8191) / 8192 ∧
      ∀ i, i < (d.length + 8191) / 8192 →
        (uploadFrames d).getD i [] =
          toBE32 i ++ toBE32 (min 8192 (d.length - 8192 * i)) ++
            (d.drop (8192 * i)).take 8192 ++ [0, 0, 0, 0]) ∧
    (∀ d : List Nat, d.length = 8192 →
      (uploadFrames d).length = 1 ∧
      ((uploadFrames d).getD 0 []).length = 8204 ∧
      (uploadFrames d).getD 0 [] = toBE32 0 ++ toBE32 8192 ++ d ++ [0, 0, 0, 0]) ∧
    (∀ d : List Nat, d.length = 8193 →
      (uploadFrames d).length = 2 ∧
      (uploadFrames d).getD 0 [] =
        toBE32 0 ++ toBE32 8192 ++ d.take 8192 ++ [0, 0, 0, 0] ∧
      (uploadFrames d).getD 1 [] = toBE32 1 ++ toBE32 1 ++ d.drop 8192 ++ [0, 0, 0, 0]) := by
  refine ⟨fun d _ _ => ⟨uploadFramesAux_length d.length d 0 le_rfl, fun i hi => ?_⟩, ?_, ?_⟩
  · have h := uploadFramesAux_getD d.length d 0 i le_rfl hi
    rw [Nat.zero_add] at h
    exact h
  · intro d hd
    have hlen : (uploadFrames d).length = 1 := by
      show (uploadFramesAux d.length d 0).length = 1
      rw [uploadFramesAux_length d.length d 0 le_rfl, hd]
    have h0 : (uploadFrames d).getD 0 [] = toBE32 0 ++ toBE32 8192 ++ d ++ [0, 0, 0, 0] := by
      show (uploadFramesAux d.length d 0).getD 0 [] = _
      rw [uploadFramesAux_getD d.length d 0 0 le_rfl (by rw [hd]; norm_num)]
      simp only [Nat.add_zero, Nat.mul_zero, Nat.sub_zero, List.drop_zero, hd,
        Nat.min_self]
      rw [List.take_of_length_le (le_of_eq hd)]
    refine ⟨hlen, ?_, h0⟩
    rw [h0]
    simp [toBE32, hd]
  · intro d hd
    have hlen : (uploadFrames d).length = 2 := by
      show (uploadFramesAux d.length d 0).length = 2
      rw [uploadFramesAux_length d.length d 0 le_rfl, hd]
    have h0 : (uploadFrames d).getD 0 [] =
        toBE32 0 ++ toBE32 8192 ++ d.take 8192 ++ [0, 0, 0, 0] := by
      show (uploadFramesAux d.length d 0).getD 0 [] = _
      rw [uploadFramesAux_getD d.length d 0 0 le_rfl (by rw [hd]; norm_num)]
      simp only [Nat.add_zero, Nat.mul_zero, Nat.sub_zero, List.drop_zero, hd]
      norm_num
    have h1 : (uploadFrames d).getD 1 [] =
        toBE32 1 ++ toBE32 1 ++ d.drop 8192 ++ [0, 0, 0, 0] := by
      show (uploadFramesAux d.length d 0).getD 1 [] = _
      rw [uploadFramesAux_getD d.length d 0 1 le_rfl (by rw [hd]; norm_num)]
      simp only [Nat.zero_add, Nat.mul_one, hd]
      have ht : (d.drop 8192).take 8192 = d.drop 8192 :=
        List.take_of_length_le (by simp [hd])
      rw [ht]
      norm_num
    exact ⟨hlen, h0, h1⟩

/-- Witness for C2: the one-byte payload `[7]` produces a single frame
`[0,0,0,0, 0,0,0,1, 7, 0,0,0,0]`. -/
theorem c2_upload_frame_shape_witness :
    (uploadFrames [7]).length = 1 ∧
    (uploadFrames [7]).getD 0 [] = [0, 0, 0, 0, 0, 0, 0, 1, 7, 0, 0, 0, 0] := by
  have h := c2_upload_frame_shape.1 [7] (by decide) (by norm_num)
  refine ⟨by rw [h.1]; decide, ?_⟩
  have := h.2 0 (by norm_num)
  rw [this]
  decide

/-- `getD` on a replicated list. -/
theorem getD_replicate {α : Type} (a d : α) :
    ∀ (n i : Nat), (List.replicate n a).getD i d = if i < n then a else d := by
  intro n
  induction n with
  | zero => intro i; simp
  | succ n ih =>
    intro i
    cases i with
    | zero => simp [List.replicate_succ]
    | succ i =>
      rw [List.replicate_succ, List.getD_cons_succ, ih i]
      simp [Nat.succ_lt_succ_iff]

/-- **C3, counterexample.** The claim "decode checks the magic and raises
`NotA3wFileError` on mismatch" is false: no magic check exists
(`NotA3wFileError` does not occur anywhere in the code).  An 8192-byte
all-zero buffer, whose first 16 bytes differ from the magic, decodes
successfully to the empty string. -/
theorem c3_counterexample :
    decrypt3wToGcode idCfg (List.replicate 8192 0) = Except.ok [] ∧
    (List.replicate 8192 0).take 16 ≠ magic3w := by
  have hread : ∀ o : Nat, readLE32 (List.replicate 8192 (0 : Nat)) o = 0 := by
    intro o
    unfold readLE32
    rw [getD_replicate, getD_replicate, getD_replicate, getD_replicate]
    split_ifs <;> simp
  constructor
  · unfold decrypt3wToGcode
    rw [if_neg (by rw [List.length_replicate]; omega)]
    dsimp only
    rw [hread 80, hread 84, hread 88, hread 104]
    simp only [List.drop_zero, List.take_zero]
    norm_num [stripPkcs7, idCfg]
  · rw [List.take_replicate]
    decide

/-- **C3, amended.** `decrypt_3w_to_gcode` never examines the magic: its only
input validation is the length check, raising `ValueError` exactly when the
input is shorter than 8192 bytes; any buffer of at least 8192 bytes — in
particular one whose first 16 bytes differ from the magic signature — is
decoded without error (cipher and zip primitives modelled as total
functions). -/
theorem c3_decode_no_magic_check (cfg : ConvCfg) (data : List Nat) :
    (∃ e, decrypt3wToGcode cfg data = Except.error e) ↔ data.length < 8192 := by
  constructor
  · rintro ⟨e, he⟩
    by_contra h
    push_neg at h
    unfold decrypt3wToGcode at he
    rw [if_neg (by omega)] at he
    exact absurd he (by simp)
  · intro h
    refine ⟨"File too small to be a valid .3w file".toList, ?_⟩
    unfold decrypt3wToGcode
    rw [if_pos h]

/-- Length of the PKCS7-padded buffer. -/
theorem pkcs7Pad_length (d : List Nat) :
    (pkcs7Pad d).length = d.length + (16 - d.length % 16) := by
  unfold pkcs7Pad
  have h : ¬ (16 - d.length % 16 = 0) := by omega
  simp [h]

/-- A successful `struct.pack("<I", ·)` means the value fits in 32 bits. -/
theorem packLE32_some {n : Nat} {b : List Nat} (h : packLE32 n = some b) :
    n < 2 ^ 32 := by
  by_contra hc
  unfold packLE32 at h
  rw [if_neg hc] at h
  exact absurd h (by simp)

/-- A failing `struct.pack("<I", ·)` means the value does not fit. -/
theorem packLE32_none {n : Nat} (h : packLE32 n = none) : ¬ n < 2 ^ 32 := by
  intro hc
  unfold packLE32 at h
  rw [if_pos hc] at h
  exact absurd h (by simp)

/-- `_build_header` succeeds exactly when every packed field fits in 32
bits (the body-offset literal 8192 always fits). -/
theorem buildHeader_isSome (mb : List Nat) (u : Bool) (bs es pt fi : Nat) :
    (buildHeader mb u bs es pt fi).isSome = true ↔
      (es < 2 ^ 32 ∧ bs < 2 ^ 32 ∧ pt < 2 ^ 32 ∧ fi < 2 ^ 32) := by
  have h8 : packLE32 8192 = some (le32 8192) := by
    unfold packLE32
    rw [if_pos (by norm_num)]
  unfold buildHeader
  rw [h8]
  rcases h1 : packLE32 es with _ | b84 <;> rcases h2 : packLE32 bs with _ | b88 <;>
    rcases h3 : packLE32 pt with _ | b96 <;> rcases h4 : packLE32 fi with _ | b100 <;>
    dsimp only <;>
    simp only [Option.isSome_some, Option.isSome_none] <;>
    first
      | exact iff_of_true (by simp) ⟨packLE32_some h1, packLE32_some h2, packLE32_some h3,
          packLE32_some h4⟩
      | (refine iff_of_false (by simp) ?_
         rintro ⟨k1, k2, k3, k4⟩
         first
           | exact packLE32_none h1 k1
           | exact packLE32_none h2 k2
           | exact packLE32_none h3 k3
           | exact packLE32_none h4 k4)

/-- isSome of the header match in the container encoders. -/
theorem isSome_match_header (o : Option (List Nat)) (enc : List Nat) :
    (match o with
      | none => none
      | some header => some (header ++ enc)).isSome = o.isSome := by
  cases o <;> simp

/-- The ECB cipher path of the encoder succeeds iff every header field
fits in 32 bits, i.e. iff the padded body is shorter than `2^32`. -/
theorem encodeEcbContainer_isSome_iff (cfg : ConvCfg) (mb : List Nat)
    (pt fi : Nat) (body : List Nat)
    (hlen : ∀ b, (cfg.aesEncEcb b).length = b.length)
    (hpt : pt < 2 ^ 32) (hfi : fi < 2 ^ 32) :
    (encodeEcbContainer cfg mb pt fi body).isSome = true ↔
      body.length < 2 ^ 32 - 16 := by
  unfold encodeEcbContainer
  rw [isSome_match_header, buildHeader_isSome, hlen, pkcs7Pad_length]
  omega

/-- **C6, counterexample.** The claim "inputs longer than `2^32 − 8192` bytes
make encoding fail with `FileTooLargeError`" is false: `FileTooLargeError`
does not exist in the code, and a body of `2^32 − 8000` bytes (longer than
`2^32 − 8192`) passes the ECB cipher path and the header build without any
error at all. -/
theorem c6_counterexample :
    2 ^ 32 - 8000 > 2 ^ 32 - 8192 ∧
    (encodeEcbContainer idCfg [] 0 0
        (List.replicate (2 ^ 32 - 8000) 0)).isSome = true := by
  refine ⟨by norm_num, ?_⟩
  rw [encodeEcbContainer_isSome_iff idCfg [] 0 0 _ (fun _ => rfl)
    (by norm_num) (by norm_num)]
  rw [List.length_replicate]
  norm_num

/-- **C6, amended.** With in-range print-time and filament fields and a
length-preserving cipher, the ECB cipher path of the encoder succeeds iff
the body is shorter than `2^32 − 16` bytes: the real failure threshold is
the padded body size reaching `2^32` (a `struct.error` from `pack_into`),
not `2^32 − 8192`, and no `FileTooLargeError` exists. -/
theorem c6_encode_size_threshold (cfg : ConvCfg) (mb : List Nat)
    (pt fi : Nat) (body : List Nat)
    (hlen : ∀ b, (cfg.aesEncEcb b).length = b.length)
    (hpt : pt < 2 ^ 32) (hfi : fi < 2 ^ 32) :
    (encodeEcbContainer cfg mb pt fi body).isSome = true ↔
      body.length < 2 ^ 32 - 16 :=
  encodeEcbContainer_isSome_iff cfg mb pt fi body hlen hpt hfi

/-- Witness for the amended C6: a 3-byte body encodes successfully through
the ECB path with the identity cipher. -/
theorem c6_encode_size_threshold_witness :
    (encodeEcbContainer idCfg [] 0 0 [1, 2, 3]).isSome = true :=
  (c6_encode_size_threshold idCfg [] 0 0 [1, 2, 3] (fun _ => rfl)
    (by norm_num) (by norm_num)).mpr (by norm_num)

/-- Length of a packed 32-bit field. -/
theorem le32_length (n : Nat) : (le32 n).length = 4 := rfl

/-- Length of the magic. -/
theorem magic3w_length : magic3w.length = 16 := by decide

/-- `writeAt` into a buffer split at the write position. -/
theorem writeAt_concat (pre rest v : List Nat) (pos : Nat)
    (hp : pre.length = pos) :
    writeAt (pre ++ rest) pos v = pre ++ v ++ rest.drop v.length := by
  unfold writeAt
  subst hp
  rw [List.take_left, List.drop_append]

/-- `writeAt` into the zero-filled tail region. -/
theorem writeAt_zeros (pre : List Nat) (k : Nat) (v : List Nat) (pos : Nat)
    (hp : pre.length = pos) :
    writeAt (pre ++ List.replicate k 0) pos v =
      pre ++ v ++ List.replicate (k - v.length) 0 := by
  rw [writeAt_concat pre _ v pos hp, List.drop_replicate]

/-- Splitting a zero fill after a prefix. -/
theorem zeros_split (P : List Nat) (k j : Nat) (hj : j ≤ k) :
    P ++ List.replicate k 0 = (P ++ List.replicate j 0) ++ List.replicate (k - j) 0 := by
  rw [List.append_assoc, ← List.replicate_add]
  congr 2
  omega

/-- `_build_header` with in-range fields produces exactly the `hdrConcat`
layout. -/
theorem buildHeader_eq (mb : List Nat) (u : Bool) (bs es pt fi : Nat)
    (hes : es < 2 ^ 32) (hbs : bs < 2 ^ 32) (hpt : pt < 2 ^ 32)
    (hfi : fi < 2 ^ 32) :
    buildHeader mb u bs es pt fi = some (hdrConcat (mb.take 32) bs es pt fi u) := by
  have hL : (mb.take 32).length ≤ 32 := by
    rw [List.length_take]; exact Nat.min_le_left _ _
  unfold buildHeader
  rw [(show packLE32 8192 = some (le32 8192) by
        unfold packLE32; rw [if_pos (by norm_num)]),
      (show packLE32 es = some (le32 es) by unfold packLE32; rw [if_pos hes]),
      (show packLE32 bs = some (le32 bs) by unfold packLE32; rw [if_pos hbs]),
      (show packLE32 pt = some (le32 pt) by unfold packLE32; rw [if_pos hpt]),
      (show packLE32 fi = some (le32 fi) by unfold packLE32; rw [if_pos hfi])]
  dsimp only
  rw [Option.some.injEq]
  have s1 : writeAt (List.replicate 8192 0) 0 magic3w =
      magic3w ++ List.replicate 8176 0 := by
    rw [show List.replicate 8192 (0 : Nat) = [] ++ List.replicate 8192 0 from rfl,
        writeAt_zeros [] 8192 magic3w 0 rfl, magic3w_length, List.nil_append]
  have s2 : writeAt (magic3w ++ List.replicate 8176 0) 16 (le32 2) =
      magic3w ++ le32 2 ++ List.replicate 8172 0 := by
    rw [writeAt_zeros magic3w 8176 (le32 2) 16 magic3w_length, le32_length]
  have s3 : writeAt (magic3w ++ le32 2 ++ List.replicate 8172 0) 32 (mb.take 32) =
      magic3w ++ le32 2 ++ List.replicate 12 0 ++ mb.take 32 ++
        List.replicate (8160 - (mb.take 32).length) 0 := by
    rw [zeros_split (magic3w ++ le32 2) 8172 12 (by norm_num),
        show (8172 : Nat) - 12 = 8160 from rfl,
        writeAt_zeros _ 8160 (mb.take 32) 32
          (by simp [magic3w_length, le32_length])]
  have s4 : writeAt (magic3w ++ le32 2 ++ List.replicate 12 0 ++ mb.take 32 ++
        List.replicate (8160 - (mb.take 32).length) 0) 80 (le32 8192) =
      magic3w ++ le32 2 ++ List.replicate 12 0 ++ mb.take 32 ++
        List.replicate (48 - (mb.take 32).length) 0 ++ le32 8192 ++
        List.replicate 8108 0 := by
    rw [zeros_split _ (8160 - (mb.take 32).length) (48 - (mb.take 32).length)
          (by omega),
        show (8160 - (mb.take 32).length) - (48 - (mb.take 32).length) = 8112 by omega,
        writeAt_zeros _ 8112 (le32 8192) 80
          (by simp [magic3w_length, le32_length, List.length_take] <;> omega),
        le32_length]
  have s5 : writeAt (magic3w ++ le32 2 ++ List.replicate 12 0 ++ mb.take 32 ++
        List.replicate (48 - (mb.take 32).length) 0 ++ le32 8192 ++
        List.replicate 8108 0) 84 (le32 es) =
      magic3w ++ le32 2 ++ List.replicate 12 0 ++ mb.take 32 ++
        List.replicate (48 - (mb.take 32).length) 0 ++ le32 8192 ++ le32 es ++
        List.replicate 8104 0 := by
    rw [writeAt_zeros _ 8108 (le32 es) 84
          (by simp [magic3w_length, le32_length, List.length_take] <;> omega),
        le32_length]
  have s6 : writeAt (magic3w ++ le32 2 ++ List.replicate 12 0 ++ mb.take 32 ++
        List.replicate (48 - (mb.take 32).length) 0 ++ le32 8192 ++ le32 es ++
        List.replicate 8104 0) 88 (le32 bs) =
      magic3w ++ le32 2 ++ List.replicate 12 0 ++ mb.take 32 ++
        List.replicate (48 - (mb.take 32).length) 0 ++ le32 8192 ++ le32 es ++
        le32 bs ++ List.replicate 8100 0 := by
    rw [writeAt_zeros _ 8104 (le32 bs) 88
          (by simp [magic3w_length, le32_length, List.length_take] <;> omega),
        le32_length]
  have s7 : writeAt (magic3w ++ le32 2 ++ List.replicate 12 0 ++ mb.take 32 ++
        List.replicate (48 - (mb.take 32).length) 0 ++ le32 8192 ++ le32 es ++
        le32 bs ++ List.replicate 8100 0) 96 (le32 pt) =
      magic3w ++ le32 2 ++ List.replicate 12 0 ++ mb.take 32 ++
        List.replicate (48 - (mb.take 32).length) 0 ++ le32 8192 ++ le32 es ++
        le32 bs ++ List.replicate 4 0 ++ le32 pt ++ List.replicate 8092 0 := by
    rw [zeros_split _ 8100 4 (by norm_num), show (8100 : Nat) - 4 = 8096 from rfl,
        writeAt_zeros _ 8096 (le32 pt) 96
          (by simp [magic3w_length, le32_length, List.length_take] <;> omega),
        le32_length]
  have s8 : writeAt (magic3w ++ le32 2 ++ List.replicate 12 0 ++ mb.take 32 ++
        List.replicate (48 - (mb.take 32).length) 0 ++ le32 8192 ++ le32 es ++
        le32 bs ++ List.replicate 4 0 ++ le32 pt ++ List.replicate 8092 0) 100
        (le32 fi) =
      magic3w ++ le32 2 ++ List.replicate 12 0 ++ mb.take 32 ++
        List.replicate (48 - (mb.take 32).length) 0 ++ le32 8192 ++ le32 es ++
        le32 bs ++ List.replicate 4 0 ++ le32 pt ++ le32 fi ++
        List.replicate 8088 0 := by
    rw [writeAt_zeros _ 8092 (le32 fi) 100
          (by simp [magic3w_length, le32_length, List.length_take] <;> omega),
        le32_length]
  have s9 : writeAt (magic3w ++ le32 2 ++ List.replicate 12 0 ++ mb.take 32 ++
        List.replicate (48 - (mb.take 32).length) 0 ++ le32 8192 ++ le32 es ++
        le32 bs ++ List.replicate 4 0 ++ le32 pt ++ le32 fi ++
        List.replicate 8088 0) 104 (le32 (if u = true then 2 else 1)) =
      magic3w ++ le32 2 ++ List.replicate 12 0 ++ mb.take 32 ++
        List.replicate (48 - (mb.take 32).length) 0 ++ le32 8192 ++ le32 es ++
        le32 bs ++ List.replicate 4 0 ++ le32 pt ++ le32 fi ++
        le32 (if u = true then 2 else 1) ++ List.replicate 8084 0 := by
    rw [writeAt_zeros _ 8088 (le32 (if u = true then 2 else 1)) 104
          (by simp [magic3w_length, le32_length, List.length_take] <;> omega),
        le32_length]
  rw [s1, s2, s3, s4, s5, s6, s7, s8, s9]
  unfold hdrConcat
  simp only [List.append_assoc]

/-- Length of the explicit header layout. -/
theorem hdrConcat_length (mbt : List Nat) (bs es pt fi : Nat) (u : Bool)
    (hL : mbt.length ≤ 32) :
    (hdrConcat mbt bs es pt fi u).length = 8192 := by
  simp only [hdrConcat, List.length_append, List.length_replicate,
    magic3w_length, le32_length]
  omega

/-- Reading a 32-bit field that sits right after a prefix. -/
theorem readLE32_concat (pre suf : List Nat) (n o : Nat) (hn : n < 2 ^ 32)
    (ho : pre.length = o) :
    readLE32 (pre ++ (le32 n ++ suf)) o = n := by
  subst ho
  unfold readLE32
  rw [List.getD_append_right pre (le32 n ++ suf) 0 pre.length (by omega),
      List.getD_append_right pre (le32 n ++ suf) 0 (pre.length + 1) (by omega),
      List.getD_append_right pre (le32 n ++ suf) 0 (pre.length + 2) (by omega),
      List.getD_append_right pre (le32 n ++ suf) 0 (pre.length + 3) (by omega),
      show pre.length - pre.length = 0 by omega,
      show pre.length + 1 - pre.length = 1 by omega,
      show pre.length + 2 - pre.length = 2 by omega,
      show pre.length + 3 - pre.length = 3 by omega]
  simp only [le32, List.cons_append, List.getD_cons_zero, List.getD_cons_succ]
  omega

/-- A 32-bit read strictly inside the left part of an append. -/
theorem readLE32_append_left (pre suf : List Nat) (o : Nat)
    (ho : o + 3 < pre.length) :
    readLE32 (pre ++ suf) o = readLE32 pre o := by
  unfold readLE32
  rw [List.getD_append _ _ _ _ (by omega), List.getD_append _ _ _ _ (by omega),
      List.getD_append _ _ _ _ (by omega), List.getD_append _ _ _ _ (by omega)]

/-- The body-offset field of the built header reads back as 8192. -/
theorem hdrConcat_read80 (mbt : List Nat) (bs es pt fi : Nat) (u : Bool)
    (hL : mbt.length ≤ 32) :
    readLE32 (hdrConcat mbt bs es pt fi u) 80 = 8192 := by
  have hsplit : hdrConcat mbt bs es pt fi u =
      (magic3w ++ le32 2 ++ List.replicate 12 0 ++
        (mbt ++ List.replicate (48 - mbt.length) 0)) ++
      (le32 8192 ++ (le32 es ++ le32 bs ++ List.replicate 4 0 ++ le32 pt ++
        le32 fi ++ le32 (if u then 2 else 1) ++ List.replicate 8084 0)) := by
    unfold hdrConcat
    simp only [List.append_assoc]
  rw [hsplit, readLE32_concat _ _ 8192 80 (by norm_num)
      (by simp [magic3w_length, le32_length] <;> omega)]

/-- The encrypted-size field reads back. -/
theorem hdrConcat_read84 (mbt : List Nat) (bs es pt fi : Nat) (u : Bool)
    (hL : mbt.length ≤ 32) (hes : es < 2 ^ 32) :
    readLE32 (hdrConcat mbt bs es pt fi u) 84 = es := by
  have hsplit : hdrConcat mbt bs es pt fi u =
      (magic3w ++ le32 2 ++ List.replicate 12 0 ++
        (mbt ++ List.replicate (48 - mbt.length) 0) ++ le32 8192) ++
      (le32 es ++ (le32 bs ++ List.replicate 4 0 ++ le32 pt ++
        le32 fi ++ le32 (if u then 2 else 1) ++ List.replicate 8084 0)) := by
    unfold hdrConcat
    simp only [List.append_assoc]
  rw [hsplit, readLE32_concat _ _ es 84 hes
      (by simp [magic3w_length, le32_length] <;> omega)]

/-- The original-size field reads back. -/
theorem hdrConcat_read88 (mbt : List Nat) (bs es pt fi : Nat) (u : Bool)
    (hL : mbt.length ≤ 32) (hbs : bs < 2 ^ 32) :
    readLE32 (hdrConcat mbt bs es pt fi u) 88 = bs := by
  have hsplit : hdrConcat mbt bs es pt fi u =
      (magic3w ++ le32 2 ++ List.replicate 12 0 ++
        (mbt ++ List.replicate (48 - mbt.length) 0) ++ le32 8192 ++ le32 es) ++
      (le32 bs ++ (List.replicate 4 0 ++ le32 pt ++
        le32 fi ++ le32 (if u then 2 else 1) ++ List.replicate 8084 0)) := by
    unfold hdrConcat
    simp only [List.append_assoc]
  rw [hsplit, readLE32_concat _ _ bs 88 hbs
      (by simp [magic3w_length, le32_length] <;> omega)]

/-- The encryption-type field reads back. -/
theorem hdrConcat_read104 (mbt : List Nat) (bs es pt fi : Nat) (u : Bool)
    (hL : mbt.length ≤ 32) :
    readLE32 (hdrConcat mbt bs es pt fi u) 104 = (if u then 2 else 1) := by
  have hsplit : hdrConcat mbt bs es pt fi u =
      (magic3w ++ le32 2 ++ List.replicate 12 0 ++
        (mbt ++ List.replicate (48 - mbt.length) 0) ++ le32 8192 ++ le32 es ++
        le32 bs ++ List.replicate 4 0 ++ le32 pt ++ le32 fi) ++
      (le32 (if u then 2 else 1) ++ List.replicate 8084 0) := by
    unfold hdrConcat
    simp only [List.append_assoc]
  rw [hsplit, readLE32_concat _ _ _ 104 (by cases u <;> norm_num)
      (by simp [magic3w_length, le32_length] <;> omega)]

/-- Stripping the PKCS7 pad recovers the original buffer. -/
theorem stripPkcs7_pad (body : List Nat) : stripPkcs7 (pkcs7Pad body) = body := by
  have hp0 : ¬ (16 - body.length % 16 = 0) := by omega
  have hpad : pkcs7Pad body =
      body ++ List.replicate (16 - body.length % 16) (16 - body.length % 16) := by
    unfold pkcs7Pad
    dsimp only
    rw [if_neg hp0]
  rw [hpad]
  have hp1 : 0 < 16 - body.length % 16 := by omega
  have hp16 : 16 - body.length % 16 ≤ 16 := by omega
  generalize hq : 16 - body.length % 16 = p at hp1 hp16
  have hlast : (body ++ List.replicate p p).getLast? = some p := by
    rw [List.getLast?_append, List.getLast?_replicate, if_neg (by omega)]
    rfl
  have hlen : (body ++ List.replicate p p).length = body.length + p := by simp
  have hdrop : (body ++ List.replicate p p).drop
      ((body ++ List.replicate p p).length - p) = List.replicate p p := by
    rw [hlen, Nat.add_sub_cancel, List.drop_left]
  have htake : (body ++ List.replicate p p).take
      ((body ++ List.replicate p p).length - p) = body := by
    rw [hlen, Nat.add_sub_cancel, List.take_left]
  unfold stripPkcs7
  rw [hlast]
  dsimp only
  have hcond : (decide (0 < p) && decide (p ≤ 16) &&
      ((body ++ List.replicate p p).drop
        ((body ++ List.replicate p p).length - p)).all (fun b => b == p)) = true := by
    rw [hdrop]
    simp [hp1, hp16, List.all_replicate]
  rw [if_pos hcond, htake]

/-- The preprocessor output is never empty. -/
theorem preprocess_ne_nil (m : List Char) (t : Nat) (f g : List Char) :
    preprocessGcode m t f g ≠ [] := by
  unfold preprocessGcode
  simp

/-- The preprocessor output always ends in a newline. -/
theorem preprocess_getLastD (m : List Char) (t : Nat) (f g : List Char) :
    (preprocessGcode m t f g).getLastD ' ' = '\n' := by
  unfold preprocessGcode
  rw [List.getLastD_eq_getLast?, List.getLast?_concat]
  rfl

/-- Membership in `_ECB_MODELS` makes `use_ecb` true. -/
theorem useEcbOf_of_mem {model : List Char} (hm : model ∈ ecbModels) :
    useEcbOf model = true := by
  unfold useEcbOf
  exact List.elem_eq_true_of_mem hm

/-- Decoding a container made of the built header and an encrypted body
whose decryption is the padded body returns the decoded body. -/
theorem decrypt_hdrConcat (cfg : ConvCfg) (mbt : List Nat)
    (body enc : List Nat) (pt fi : Nat) (hL : mbt.length ≤ 32)
    (hdec : cfg.aesDecEcb enc = pkcs7Pad body)
    (hencLen : enc.length < 2 ^ 32) (hbodyLen : body.length < 2 ^ 32)
    (hne : body ≠ []) :
    decrypt3wToGcode cfg
        (hdrConcat mbt body.length enc.length pt fi true ++ enc) =
      Except.ok (cfg.decodeUtf8 body) := by
  have hhl : (hdrConcat mbt body.length enc.length pt fi true).length = 8192 :=
    hdrConcat_length mbt _ _ pt fi true hL
  unfold decrypt3wToGcode
  rw [if_neg (by simp [hhl])]
  dsimp only
  rw [readLE32_append_left _ _ 80 (by omega),
      readLE32_append_left _ _ 84 (by omega),
      readLE32_append_left _ _ 88 (by omega),
      readLE32_append_left _ _ 104 (by omega),
      hdrConcat_read80 mbt _ _ pt fi true hL,
      hdrConcat_read84 mbt _ _ pt fi true hL hencLen,
      hdrConcat_read88 mbt _ _ pt fi true hL hbodyLen,
      hdrConcat_read104 mbt _ _ pt fi true hL]
  rw [List.drop_left' hhl, List.take_length,
      show (if true = true then (2 : Nat) else 1) = 2 from rfl]
  have h2 : ((2 : Nat) == 2) = true := rfl
  rw [if_pos h2, hdec, stripPkcs7_pad]
  rw [if_pos (by simp [List.length_pos, hne]), List.take_length]

/-- **C1.** For every G-code text, print-info pair and ECB-class model,
decoding the encoded container returns the preprocessed text (which always
ends in a trailing newline):
`decrypt_3w_to_gcode (convert_gcode_to_3w gcode) = _preprocess_gcode gcode`.
The AES-256-ECB pair and the UTF-8 codec are abstracted with their
contracts as hypotheses; the body must leave the 32-bit header fields in
range (the source raises `struct.error` beyond). -/
theorem c1_roundtrip (cfg : ConvCfg) (model : List Char)
    (printTime : Nat) (filamentStr : List Char) (filamentInt : Nat)
    (gcode : List Char)
    (hm : model ∈ ecbModels)
    (haes : ∀ b, cfg.aesDecEcb (cfg.aesEncEcb b) = b)
    (hlen : ∀ b, (cfg.aesEncEcb b).length = b.length)
    (hutf : ∀ s, cfg.decodeUtf8 (cfg.encodeUtf8 s) = s)
    (hne : ∀ s, s ≠ [] → cfg.encodeUtf8 s ≠ [])
    (hbody : (cfg.encodeUtf8
        (preprocessGcode model printTime filamentStr gcode)).length < 2 ^ 32 - 16)
    (hpt : printTime < 2 ^ 32) (hfi : filamentInt < 2 ^ 32) :
    ∃ f, convertGcodeTo3w cfg model printTime filamentStr filamentInt gcode
        = some f ∧
      decrypt3wToGcode cfg f =
        Except.ok (preprocessGcode model printTime filamentStr gcode) ∧
      (preprocessGcode model printTime filamentStr gcode).getLastD ' ' = '\n' := by
  set processed := preprocessGcode model printTime filamentStr gcode with hproc
  set body := cfg.encodeUtf8 processed with hbodydef
  set enc := cfg.aesEncEcb (pkcs7Pad body) with hencdef
  have hencLen : enc.length < 2 ^ 32 := by
    rw [hencdef, hlen, pkcs7Pad_length]
    omega
  have hbodyLen : body.length < 2 ^ 32 := by omega
  have hLtake : ((asciiBytes model).take 32).length ≤ 32 := by
    rw [List.length_take]
    exact Nat.min_le_left _ _
  have hconv : convertGcodeTo3w cfg model printTime filamentStr filamentInt gcode
      = some (hdrConcat ((asciiBytes model).take 32) body.length enc.length
          printTime filamentInt true ++ enc) := by
    unfold convertGcodeTo3w
    dsimp only
    rw [useEcbOf_of_mem hm, if_pos rfl]
    unfold encodeEcbContainer
    dsimp only
    rw [← hproc, ← hbodydef, ← hencdef,
      buildHeader_eq (asciiBytes model) true body.length enc.length printTime
        filamentInt hencLen hbodyLen hpt hfi]
  refine ⟨_, hconv, ?_, preprocess_getLastD model printTime filamentStr gcode⟩
  rw [decrypt_hdrConcat cfg _ body enc printTime filamentInt hLtake
      (by rw [hencdef, haes]) hencLen hbodyLen
      (hne processed (preprocess_ne_nil model printTime filamentStr gcode)),
    hutf]

set_option maxRecDepth 4000 in
/-- Witness for C1: the round trip at the miniMaker model, a small G-code
text and the identity instantiation of the external primitives. -/
theorem c1_roundtrip_witness :
    ∃ f, convertGcodeTo3w idCfg "dv1MX0A000".toList 60 "12.5".toList 12
        "G0 X1".toList = some f ∧
      decrypt3wToGcode idCfg f =
        Except.ok (preprocessGcode "dv1MX0A000".toList 60 "12.5".toList
          "G0 X1".toList) ∧
      (preprocessGcode "dv1MX0A000".toList 60 "12.5".toList
        "G0 X1".toList).getLastD ' ' = '\n' :=
  c1_roundtrip idCfg "dv1MX0A000".toList 60 "12.5".toList 12 "G0 X1".toList
    (by decide) (fun _ => rfl) (fun _ => rfl)
    (fun s => by
      simp only [idCfg, List.map_map]
      exact List.map_congr_left (fun c _ => Char.ofNat_toNat c) |>.trans (List.map_id s))
    (fun s hs => by simp [idCfg, hs])
    (by
      show (List.map Char.toNat (preprocessGcode "dv1MX0A000".toList 60
        "12.5".toList "G0 X1".toList)).length < 2 ^ 32 - 16
      rw [List.length_map]
      norm_num
      decide) (by norm_num) (by norm_num)

/-- `dropWhile` is idempotent. -/
theorem dropWhile_ws_idem (l : List Char) :
    (l.dropWhile pyIsSpace).dropWhile pyIsSpace = l.dropWhile pyIsSpace := by
  induction l with
  | nil => rfl
  | cons c t ih =>
    by_cases h : pyIsSpace c
    · simp only [List.dropWhile_cons, h, if_true]
      exact ih
    · simp [List.dropWhile_cons, h]

/-- Unfolding equation of `dropTrailWs` on a cons. -/
theorem dropTrailWs_cons (c : Char) (t : List Char) :
    dropTrailWs (c :: t) =
      if (dropTrailWs t).isEmpty && pyIsSpace c then [] else c :: dropTrailWs t := rfl

/-- `dropTrailWs` on a cons is either empty or keeps the head. -/
theorem dropTrailWs_cons_or (c : Char) (t : List Char) :
    dropTrailWs (c :: t) = [] ∨ dropTrailWs (c :: t) = c :: dropTrailWs t := by
  rw [dropTrailWs_cons]
  split_ifs
  · exact Or.inl rfl
  · exact Or.inr rfl

/-- Default irrelevance of `getLastD` on non-empty lists. -/
theorem getLastD_irrel {l : List Char} (h : l ≠ []) (a b : Char) :
    l.getLastD a = l.getLastD b := by
  rw [List.getLastD_eq_getLast?, List.getLastD_eq_getLast?,
      List.getLast?_eq_getLast l h]
  rfl

/-- The last character after `dropTrailWs` is never whitespace. -/
theorem getLastD_dropTrailWs (l : List Char) :
    pyIsSpace ((dropTrailWs l).getLastD 'a') = false := by
  induction l with
  | nil => decide
  | cons c t ih =>
    rw [dropTrailWs_cons]
    split_ifs with h
    · decide
    · rcases eq_or_ne (dropTrailWs t) [] with he | he
      · rw [he] at h ⊢
        simp only [List.isEmpty_nil, true_and] at h
        simp only [List.getLastD_cons, List.getLastD_nil]
        simpa using h
      · rw [List.getLastD_cons, getLastD_irrel he c 'a']
        exact ih

/-- `dropTrailWs` is the identity when the last character is not
whitespace. -/
theorem dropTrailWs_eq_self {l : List Char}
    (h : pyIsSpace (l.getLastD 'a') = false) : dropTrailWs l = l := by
  induction l with
  | nil => rfl
  | cons c t ih =>
    rcases eq_or_ne t [] with rfl | ht
    · simp only [List.getLastD_cons, List.getLastD_nil] at h
      rw [dropTrailWs_cons]
      simp [h, dropTrailWs]
    · have h2 : pyIsSpace (t.getLastD 'a') = false := by
        rw [List.getLastD_cons, getLastD_irrel ht c 'a'] at h
        exact h
      rw [dropTrailWs_cons, ih h2]
      have hne : t.isEmpty = false := by simpa using ht
      simp [hne]

/-- `dropWhile` is the identity when the head is not whitespace. -/
theorem dropWhile_ws_eq_self {l : List Char}
    (h : pyIsSpace (l.headD 'a') = false) : l.dropWhile pyIsSpace = l := by
  cases l with
  | nil => rfl
  | cons c t =>
    simp only [List.headD_cons] at h
    simp [List.dropWhile_cons, h]

/-- The head after `dropWhile` is never whitespace. -/
theorem headD_dropWhile_ws (l : List Char) :
    pyIsSpace ((l.dropWhile pyIsSpace).headD 'a') = false := by
  induction l with
  | nil => decide
  | cons c t ih =>
    by_cases h : pyIsSpace c
    · simp only [List.dropWhile_cons, h, if_true]
      exact ih
    · simp [List.dropWhile_cons, h]

/-- The head after `pyStrip` is never whitespace. -/
theorem headD_pyStrip (l : List Char) :
    pyIsSpace ((pyStrip l).headD 'a') = false := by
  unfold pyStrip
  cases hdw : l.dropWhile pyIsSpace with
  | nil => decide
  | cons c t =>
    have hc : pyIsSpace c = false := by
      have h0 := headD_dropWhile_ws l
      rw [hdw] at h0
      simpa using h0
    rcases dropTrailWs_cons_or c t with h | h <;> rw [h]
    · decide
    · simpa using hc

/-- The last character after `pyStrip` is never whitespace. -/
theorem getLastD_pyStrip (l : List Char) :
    pyIsSpace ((pyStrip l).getLastD 'a') = false :=
  getLastD_dropTrailWs _

/-- `pyStrip` is the identity on lists with no whitespace at either edge. -/
theorem pyStrip_eq_self {l : List Char}
    (hh : pyIsSpace (l.headD 'a') = false)
    (hl : pyIsSpace (l.getLastD 'a') = false) : pyStrip l = l := by
  unfold pyStrip
  rw [dropWhile_ws_eq_self hh, dropTrailWs_eq_self hl]

/-- `pyStrip` is idempotent. -/
theorem pyStrip_idem (l : List Char) : pyStrip (pyStrip l) = pyStrip l :=
  pyStrip_eq_self (headD_pyStrip l) (getLastD_pyStrip l)

/-- Characters of `dropTrailWs l` come from `l`. -/
theorem mem_dropTrailWs {c : Char} {l : List Char}
    (h : c ∈ dropTrailWs l) : c ∈ l := by
  induction l with
  | nil => simpa [dropTrailWs] using h
  | cons d t ih =>
    rw [dropTrailWs_cons] at h
    split_ifs at h
    · simp at h
    · rcases List.mem_cons.mp h with rfl | h2
      · exact List.mem_cons_self _ _
      · exact List.mem_cons_of_mem _ (ih h2)

/-- Characters of `pyStrip l` come from `l`. -/
theorem mem_pyStrip {c : Char} {l : List Char} (h : c ∈ pyStrip l) : c ∈ l :=
  List.Sublist.mem (mem_dropTrailWs h) (List.dropWhile_sublist _)

/-- `leadsWith` characterises list prefixes. -/
theorem leadsWith_iff (n : List Char) :
    ∀ h : List Char, leadsWith n h = true ↔ ∃ t, h = n ++ t := by
  induction n with
  | nil =>
    intro h
    simp [leadsWith]
  | cons a as ih =>
    intro h
    cases h with
    | nil =>
      simp [leadsWith]
    | cons b bs =>
      simp only [leadsWith, Bool.and_eq_true, beq_iff_eq, ih bs]
      constructor
      · rintro ⟨rfl, t, rfl⟩
        exact ⟨t, rfl⟩
      · rintro ⟨t, ht⟩
        rw [List.cons_append] at ht
        injection ht with h1 h2
        exact ⟨h1.symm, t, h2⟩

/-- `hasSub` characterises substring occurrence. -/
theorem hasSub_iff (n : List Char) :
    ∀ h : List Char, hasSub n h = true ↔ ∃ x y, h = x ++ n ++ y := by
  intro h
  induction h with
  | nil =>
    simp only [hasSub, List.isEmpty_iff]
    constructor
    · intro hn
      exact ⟨[], [], by simp [hn]⟩
    · rintro ⟨x, y, hxy⟩
      rcases List.append_eq_nil.mp (List.append_eq_nil.mp hxy.symm).1 with ⟨-, h2⟩
      exact h2
  | cons c t ih =>
    simp only [hasSub, Bool.or_eq_true, ih, leadsWith_iff]
    constructor
    · rintro (⟨ty, hty⟩ | ⟨x, y, rfl⟩)
      · exact ⟨[], ty, by simpa using hty⟩
      · exact ⟨c :: x, y, rfl⟩
    · rintro ⟨x, y, hxy⟩
      cases x with
      | nil => exact Or.inl ⟨y, by simpa using hxy⟩
      | cons d x2 =>
        right
        simp only [List.cons_append, List.append_assoc] at hxy
        injection hxy with h1 h2
        exact ⟨x2, y, by simp [h2, List.append_assoc]⟩

/-- `hasSub` is monotone under cons. -/
theorem hasSub_cons {n t : List Char} (c : Char) (h : hasSub n t = true) :
    hasSub n (c :: t) = true := by
  show (leadsWith n (c :: t) || hasSub n t) = true
  rw [h, Bool.or_true]

/-- Removing a head that cannot start the needle. -/
theorem hasSub_cons_ne {n t : List Char} {c : Char}
    (hne : leadsWith n (c :: t) = false) (h : hasSub n (c :: t) = true) :
    hasSub n t = true := by
  have h2 : (leadsWith n (c :: t) || hasSub n t) = true := h
  rw [hne, Bool.false_or] at h2
  exact h2

/-- Arithmetic characterisation of the whitespace set. -/
theorem pyIsSpace_iff (c : Char) : pyIsSpace c = true ↔
    (c.toNat = 9 ∨ c.toNat = 10 ∨ c.toNat = 11 ∨ c.toNat = 12 ∨
     c.toNat = 13 ∨ (28 ≤ c.toNat ∧ c.toNat ≤ 32) ∨ c.toNat = 133 ∨
     c.toNat = 160 ∨ c.toNat = 0x1680 ∨
     (0x2000 ≤ c.toNat ∧ c.toNat ≤ 0x200a) ∨ c.toNat = 0x2028 ∨
     c.toNat = 0x2029 ∨ c.toNat = 0x202f ∨ c.toNat = 0x205f ∨
     c.toNat = 0x3000) := by
  unfold pyIsSpace
  simp only [Bool.or_eq_true, Bool.and_eq_true, beq_iff_eq, decide_eq_true_eq]
  tauto

/-- Arithmetic characterisation of the line-boundary set. -/
theorem isLineBound_iff (c : Char) : isLineBound c = true ↔
    (c.toNat = 10 ∨ c.toNat = 11 ∨ c.toNat = 12 ∨ c.toNat = 13 ∨
     c.toNat = 28 ∨ c.toNat = 29 ∨ c.toNat = 30 ∨ c.toNat = 133 ∨
     c.toNat = 0x2028 ∨ c.toNat = 0x2029) := by
  unfold isLineBound
  simp only [Bool.or_eq_true, beq_iff_eq]
  tauto

/-- Every line-boundary character is whitespace; contrapositive form. -/
theorem isLineBound_eq_false {c : Char} (h : pyIsSpace c = false) :
    isLineBound c = false := by
  cases hb : isLineBound c
  · rfl
  · have h1 := (isLineBound_iff c).mp hb
    have h2 : pyIsSpace c = true := (pyIsSpace_iff c).mpr (by omega)
    rw [h2] at h
    exact absurd h (by simp)

/-- Characters in the printable ASCII-and-beyond gap are not whitespace. -/
theorem pyIsSpace_false_of_range {c : Char} (h1 : 33 ≤ c.toNat)
    (h2 : c.toNat ≤ 132) : pyIsSpace c = false := by
  cases hval : pyIsSpace c
  · rfl
  · have := (pyIsSpace_iff c).mp hval
    omega

/-- ASCII lower-casing does not affect whitespace classification. -/
theorem pyIsSpace_asciiLower (c : Char) :
    pyIsSpace (asciiLower c) = pyIsSpace c := by
  unfold asciiLower
  split_ifs with h
  · have hb : 65 ≤ c.toNat ∧ c.toNat ≤ 90 := by
      simpa [Bool.and_eq_true, decide_eq_true_eq] using h
    have hv : (Char.ofNat (c.toNat + 32)).toNat = c.toNat + 32 := by
      unfold Char.ofNat
      rw [dif_pos (Or.inl (by omega))]
      rfl
    rw [pyIsSpace_false_of_range (c := Char.ofNat (c.toNat + 32))
          (by rw [hv]; omega) (by rw [hv]; omega),
        pyIsSpace_false_of_range (c := c) (by omega) (by omega)]
  · rfl

/-- `dropTrailWs` commutes with ASCII lower-casing. -/
theorem dropTrailWs_map_lower (l : List Char) :
    dropTrailWs (l.map asciiLower) = (dropTrailWs l).map asciiLower := by
  induction l with
  | nil => rfl
  | cons c t ih =>
    rw [List.map_cons, dropTrailWs_cons, dropTrailWs_cons, ih,
        pyIsSpace_asciiLower]
    by_cases hb : (dropTrailWs t).isEmpty
    · rw [List.isEmpty_iff.mp hb]
      simp only [List.map_nil]
      split_ifs <;> simp
    · have hne : dropTrailWs t ≠ [] := by simpa [List.isEmpty_iff] using hb
      have h1 : ((dropTrailWs t).map asciiLower).isEmpty = false := by
        simpa [List.isEmpty_iff] using hne
      have h2 : (dropTrailWs t).isEmpty = false := by
        simpa [List.isEmpty_iff] using hne
      rw [h1, h2]
      simp

/-- `pyStrip` commutes with ASCII lower-casing. -/
theorem lowerL_pyStrip (l : List Char) :
    lowerL (pyStrip l) = pyStrip (lowerL l) := by
  unfold pyStrip lowerL
  have hpf : (pyIsSpace ∘ asciiLower) = pyIsSpace := funext pyIsSpace_asciiLower
  rw [List.dropWhile_map, hpf, dropTrailWs_map_lower]

/-- `dropWhile` passes through a non-whitespace anchor character. -/
theorem dropWhile_through {c : Char} (hc : pyIsSpace c = false)
    (a y : List Char) :
    ∃ a2, (a ++ c :: y).dropWhile pyIsSpace = a2 ++ c :: y := by
  induction a with
  | nil => exact ⟨[], by simp [List.dropWhile_cons, hc]⟩
  | cons d a2 ih =>
    by_cases hd : pyIsSpace d
    · obtain ⟨a3, ha⟩ := ih
      refine ⟨a3, ?_⟩
      rw [List.cons_append, List.dropWhile_cons, if_pos hd]
      exact ha
    · exact ⟨d :: a2, by rw [List.cons_append, List.dropWhile_cons, if_neg (by simp [hd])]⟩

/-- `dropTrailWs` passes through a non-whitespace anchor character. -/
theorem dropTrailWs_through {c : Char} (hc : pyIsSpace c = false)
    (y : List Char) :
    ∀ b, ∃ b2, dropTrailWs (y ++ c :: b) = y ++ c :: b2 := by
  induction y with
  | nil =>
    intro b
    refine ⟨dropTrailWs b, ?_⟩
    rw [List.nil_append, dropTrailWs_cons, hc]
    simp
  | cons d y2 ih =>
    intro b
    obtain ⟨b2, hb2⟩ := ih b
    refine ⟨b2, ?_⟩
    rw [List.cons_append, dropTrailWs_cons, hb2]
    have : (y2 ++ c :: b2).isEmpty = false := by
      cases y2 <;> simp
    rw [this]
    simp

/-- The `"; machine"` needle survives `pyStrip` (on lowered text). -/
theorem hasSub_needle_strip {m : List Char}
    (h : hasSub mNeedle (lowerL m) = true) :
    hasSub mNeedle (lowerL (pyStrip m)) = true := by
  rw [lowerL_pyStrip]
  obtain ⟨x, y, hxy⟩ := (hasSub_iff mNeedle (lowerL m)).mp h
  have hxy2 : lowerL m = x ++ ';' :: (" machine".toList ++ y) := by
    rw [hxy]
    simp [mNeedle, List.append_assoc]
  obtain ⟨a2, ha2⟩ := dropWhile_through (c := ';') (by decide) x
    (" machine".toList ++ y)
  have ha3 : (lowerL m).dropWhile pyIsSpace =
      (a2 ++ "; machin".toList) ++ 'e' :: y := by
    rw [hxy2, ha2]
    simp [List.append_assoc]
  obtain ⟨b2, hb2⟩ := dropTrailWs_through (c := 'e') (by decide)
    (a2 ++ "; machin".toList) y
  apply (hasSub_iff mNeedle _).mpr
  refine ⟨a2, b2, ?_⟩
  show dropTrailWs ((lowerL m).dropWhile pyIsSpace) = a2 ++ mNeedle ++ b2
  rw [ha3, hb2]
  simp [mNeedle, List.append_assoc]

/-- The `"; machine"` needle survives the `G0` rewrite (on lowered text). -/
theorem hasSub_needle_g0fix {s : List Char}
    (h : hasSub mNeedle (lowerL s) = true) :
    hasSub mNeedle (lowerL (g0fix s)) = true := by
  unfold g0fix
  split_ifs with h1 h2
  · have hs : ∃ rest, s = 'G' :: '0' :: rest := by
      have h1b : leadsWith "G0 ".toList s = true ∨
          leadsWith "G0\t".toList s = true := by simpa using h1
      rcases h1b with hw | hw <;>
        obtain ⟨t, rfl⟩ := (leadsWith_iff _ _).mp hw
      · exact ⟨' ' :: t, rfl⟩
      · exact ⟨'\t' :: t, rfl⟩
    obtain ⟨rest, rfl⟩ := hs
    have hg : lowerL ('G' :: '0' :: rest) = 'g' :: '0' :: lowerL rest := by
      simp [lowerL, asciiLower]
    rw [hg] at h
    have h2 : hasSub mNeedle ('0' :: lowerL rest) = true :=
      hasSub_cons_ne (by simp [mNeedle, leadsWith]) h
    have h3 : hasSub mNeedle (lowerL rest) = true :=
      hasSub_cons_ne (by simp [mNeedle, leadsWith]) h2
    have hgoal : lowerL ("G1".toList ++ ('G' :: '0' :: rest).drop 2) =
        'g' :: '1' :: lowerL rest := by
      simp [lowerL, asciiLower]
    rw [hgoal]
    exact hasSub_cons _ (hasSub_cons _ h3)
  · have hs : s = "G0".toList := by simpa using h2
    subst hs
    exact absurd h (by decide)
  · exact h

/-- The machine-header detection survives per-line processing. -/
theorem hasMachineLine_procLine {l : List Char}
    (h : hasMachineLine l = true) : hasMachineLine (procLine l) = true := by
  unfold hasMachineLine procLine at *
  exact hasSub_needle_g0fix (hasSub_needle_strip h)

/-- Lines produced by `splitlines` contain no line-boundary characters. -/
theorem splitlines_noBound (s : List Char) :
    ∀ l ∈ splitlines s, ∀ c ∈ l, isLineBound c = false := by
  induction s using splitlines.induct with
  | case1 => simp [splitlines]
  | case2 rest2 ih =>
    intro l hl c hc
    rw [show splitlines ('\x0d' :: '\n' :: rest2) = [] :: splitlines rest2
      from rfl] at hl
    rcases List.mem_cons.mp hl with rfl | hl2
    · simp at hc
    · exact ih l hl2 c hc
  | case3 c rest hpat hb ih =>
    intro l hl d hd
    rw [splitlines.eq_3 c rest hpat, if_pos hb] at hl
    rcases List.mem_cons.mp hl with rfl | hl2
    · simp at hd
    · exact ih l hl2 d hd
  | case4 c rest hpat hb hrest ih =>
    intro l hl d hd
    rw [splitlines.eq_3 c rest hpat, if_neg hb, hrest] at hl
    simp only [List.mem_singleton] at hl
    subst hl
    rcases List.mem_cons.mp hd with rfl | hd2
    · simpa using hb
    · simp at hd2
  | case5 c rest hpat hb l0 ls0 hrest ih =>
    intro l hl d hd
    rw [splitlines.eq_3 c rest hpat, if_neg hb, hrest] at hl
    rcases List.mem_cons.mp hl with rfl | hl2
    · rcases List.mem_cons.mp hd with rfl | hd2
      · simpa using hb
      · exact ih l0 (hrest ▸ List.mem_cons_self l0 ls0) d hd2
    · exact ih l (hrest ▸ List.mem_cons_of_mem l0 hl2) d hd

/-- `splitlines` cuts exactly at an appended newline when the left part
contains no boundary characters. -/
theorem splitlines_append_nl (l : List Char) (rest : List Char)
    (hn : ∀ c ∈ l, isLineBound c = false) :
    splitlines (l ++ '\n' :: rest) = l :: splitlines rest := by
  induction l with
  | nil => rfl
  | cons c t ih =>
    have hc : isLineBound c = false := hn c (List.mem_cons_self c t)
    have hcr : c ≠ '\x0d' := by
      intro h
      rw [h] at hc
      exact absurd hc (by decide)
    rw [List.cons_append,
        splitlines.eq_3 c (t ++ '\n' :: rest) (fun r2 hc2 _ => hcr hc2),
        if_neg (by simp [hc]),
        ih (fun d hd => hn d (List.mem_cons_of_mem c hd))]

/-- `splitlines` inverts the join-plus-final-newline of the preprocessor. -/
theorem splitlines_joinNL (ls : List (List Char)) (hne : ls ≠ [])
    (hb : ∀ l ∈ ls, ∀ c ∈ l, isLineBound c = false) :
    splitlines (joinNL ls ++ ['\n']) = ls := by
  induction ls with
  | nil => exact absurd rfl hne
  | cons l ls ih =>
    cases ls with
    | nil =>
      rw [show joinNL [l] = l from rfl,
          show (['\n'] : List Char) = '\n' :: [] from rfl,
          splitlines_append_nl l [] (hb l (List.mem_cons_self l []))]
      rfl
    | cons l2 ls2 =>
      rw [show joinNL (l :: l2 :: ls2) = l ++ '\n' :: joinNL (l2 :: ls2) from rfl,
          List.append_assoc, List.cons_append,
          splitlines_append_nl l _ (hb l (List.mem_cons_self l _)),
          ih (by simp) (fun m hm => hb m (List.mem_cons_of_mem l hm))]

/-- Characters of `natToDecAux` are accumulator characters or digits. -/
theorem natToDecAux_mem {c : Char} :
    ∀ (fuel n : Nat) (acc : List Char), c ∈ natToDecAux fuel n acc →
      c ∈ acc ∨ ∃ d, d < 10 ∧ c = digitChar d := by
  intro fuel
  induction fuel with
  | zero => exact fun n acc h => Or.inl h
  | succ f ih =>
    intro n acc h
    cases n with
    | zero => exact Or.inl h
    | succ n =>
      rcases ih ((n + 1) / 10) (digitChar ((n + 1) % 10) :: acc) h with hacc | hd
      · rcases List.mem_cons.mp hacc with rfl | h2
        · exact Or.inr ⟨(n + 1) % 10, Nat.mod_lt _ (by norm_num), rfl⟩
        · exact Or.inl h2
      · exact Or.inr hd

/-- Characters of `natToDec` are decimal digits. -/
theorem natToDec_mem {c : Char} {n : Nat} (h : c ∈ natToDec n) :
    ∃ d, d < 10 ∧ c = digitChar d := by
  unfold natToDec at h
  split_ifs at h
  · simp only [List.mem_singleton] at h
    exact ⟨0, by norm_num, by rw [h]; rfl⟩
  · rcases natToDecAux_mem n n [] h with h2 | h2
    · simp at h2
    · exact h2

/-- Digit characters are not whitespace. -/
theorem pyIsSpace_digitChar {d : Nat} (hd : d < 10) :
    pyIsSpace (digitChar d) = false := by
  interval_cases d <;> decide

/-- `g0fix` leaves a `G1`-headed line unchanged. -/
theorem g0fix_of_G1 (x : List Char) : g0fix ('G' :: '1' :: x) = 'G' :: '1' :: x := by
  unfold g0fix
  rw [if_neg (by simp [leadsWith]), if_neg (by simp)]

/-- `g0fix` leaves a line unchanged when its head is not `G`. -/
theorem g0fix_of_head_ne {l : List Char} (h : l.headD 'a' ≠ 'G') :
    g0fix l = l := by
  cases l with
  | nil => rfl
  | cons c t =>
    simp only [List.headD_cons] at h
    unfold g0fix
    rw [if_neg, if_neg]
    · simp [show c ≠ 'G' from h]
    · simp [leadsWith, show ('G' == c) = false from by simpa using (Ne.symm h)]

/-- `g0fix` is idempotent. -/
theorem g0fix_idem (s : List Char) : g0fix (g0fix s) = g0fix s := by
  by_cases h1 : (leadsWith "G0 ".toList s || leadsWith "G0\t".toList s) = true
  · have hs : ∃ t, s = 'G' :: '0' :: t := by
      have h1b : leadsWith "G0 ".toList s = true ∨
          leadsWith "G0\t".toList s = true := by simpa using h1
      rcases h1b with hw | hw <;> obtain ⟨t, rfl⟩ := (leadsWith_iff _ _).mp hw
      · exact ⟨' ' :: t, rfl⟩
      · exact ⟨'\t' :: t, rfl⟩
    obtain ⟨t, rfl⟩ := hs
    rw [show g0fix ('G' :: '0' :: t) = 'G' :: '1' :: t from by
      unfold g0fix
      rw [if_pos h1]
      rfl]
    exact g0fix_of_G1 t
  · by_cases h2 : (s == "G0".toList) = true
    · have hsg : s = "G0".toList := by simpa using h2
      subst hsg
      decide
    · have hid : g0fix s = s := by
        unfold g0fix
        rw [if_neg (by simpa using h1), if_neg (by simpa using h2)]
      rw [hid, hid]

/-- No `g0fix` output begins with a `G0` token. -/
theorem g0fix_no_G0 (s : List Char) : beginsWithG0Token (g0fix s) = false := by
  by_cases h1 : (leadsWith "G0 ".toList s || leadsWith "G0\t".toList s) = true
  · have hs : ∃ t, s = 'G' :: '0' :: t := by
      have h1b : leadsWith "G0 ".toList s = true ∨
          leadsWith "G0\t".toList s = true := by simpa using h1
      rcases h1b with hw | hw <;> obtain ⟨t, rfl⟩ := (leadsWith_iff _ _).mp hw
      · exact ⟨' ' :: t, rfl⟩
      · exact ⟨'\t' :: t, rfl⟩
    obtain ⟨t, rfl⟩ := hs
    rw [show g0fix ('G' :: '0' :: t) = 'G' :: '1' :: t from by
      unfold g0fix
      rw [if_pos h1]
      rfl]
    unfold beginsWithG0Token
    simp [leadsWith]
  · by_cases h2 : (s == "G0".toList) = true
    · have hsg : s = "G0".toList := by simpa using h2
      subst hsg
      decide
    · have hid : g0fix s = s := by
        unfold g0fix
        rw [if_neg (by simpa using h1), if_neg (by simpa using h2)]
      rw [hid]
      unfold beginsWithG0Token
      have e1 : leadsWith "G0 ".toList s = false ∧
          leadsWith "G0\t".toList s = false := by
        constructor <;>
          [skip; skip] <;> revert h1 <;> cases leadsWith "G0 ".toList s <;>
          cases leadsWith "G0\t".toList s <;> simp
      rw [e1.1, e1.2, show (s == "G0".toList) = false from by simpa using h2]
      rfl

/-- `getLastD` of an append with non-empty right part. -/
theorem getLastD_append_ne {l r : List Char} (hr : r ≠ []) (d : Char) :
    (l ++ r).getLastD d = r.getLastD d := by
  rw [List.getLastD_eq_getLast?, List.getLastD_eq_getLast?, List.getLast?_append]
  rw [List.getLast?_eq_getLast r hr]
  rfl

/-- `getLastD` of a non-empty list is a member. -/
theorem getLastD_mem {l : List Char} (h : l ≠ []) (d : Char) :
    l.getLastD d ∈ l := by
  rw [List.getLastD_eq_getLast?, List.getLast?_eq_getLast l h]
  exact List.getLast_mem h

/-- `g0fix` preserves strip-fixedness. -/
theorem g0fix_strip_fixed {s : List Char}
    (hh : pyIsSpace (s.headD 'a') = false)
    (hl : pyIsSpace (s.getLastD 'a') = false) :
    pyStrip (g0fix s) = g0fix s := by
  by_cases h1 : (leadsWith "G0 ".toList s || leadsWith "G0\t".toList s) = true
  · have hsplit : ∃ c2 t, s = 'G' :: '0' :: c2 :: t := by
      have h1b : leadsWith "G0 ".toList s = true ∨
          leadsWith "G0\t".toList s = true := by simpa using h1
      rcases h1b with hw | hw <;> obtain ⟨t, rfl⟩ := (leadsWith_iff _ _).mp hw
      · exact ⟨' ', t, rfl⟩
      · exact ⟨'\t', t, rfl⟩
    obtain ⟨c2, t, hseq⟩ := hsplit
    rw [show g0fix s = 'G' :: '1' :: c2 :: t from by
      rw [hseq]
      unfold g0fix
      rw [if_pos (hseq ▸ h1)]
      rfl]
    apply pyStrip_eq_self
    · rw [List.headD_cons]
      decide
    · rw [show ('G' :: '1' :: c2 :: t).getLastD 'a' = (c2 :: t).getLastD 'a' from by
        rw [List.getLastD_cons, List.getLastD_cons, getLastD_irrel (by simp) '1' 'a']]
      rw [hseq] at hl
      rw [show ('G' :: '0' :: c2 :: t).getLastD 'a' = (c2 :: t).getLastD 'a' from by
        rw [List.getLastD_cons, List.getLastD_cons, getLastD_irrel (by simp) '0' 'a']]
        at hl
      exact hl
  · by_cases h2 : (s == "G0".toList) = true
    · rw [show g0fix s = "G1".toList from by
        unfold g0fix
        rw [if_neg (by simpa using h1), if_pos h2]]
      decide
    · rw [show g0fix s = s from by
        unfold g0fix
        rw [if_neg (by simpa using h1), if_neg (by simpa using h2)]]
      exact pyStrip_eq_self hh hl

/-- A processed line is strip-fixed. -/
theorem procLine_strip_fixed (l : List Char) :
    pyStrip (procLine l) = procLine l := by
  unfold procLine
  exact g0fix_strip_fixed (headD_pyStrip l) (getLastD_pyStrip l)

/-- Per-line processing is idempotent. -/
theorem procLine_idem (l : List Char) : procLine (procLine l) = procLine l := by
  have h1 : procLine (procLine l) = g0fix (procLine l) := by
    unfold procLine
    rw [show pyStrip (g0fix (pyStrip l)) = g0fix (pyStrip l) from
      procLine_strip_fixed l]
  rw [h1]
  unfold procLine
  exact g0fix_idem (pyStrip l)

/-- Characters of `g0fix s` are `G`, `1`, or characters of `s`. -/
theorem mem_g0fix {c : Char} {s : List Char} (h : c ∈ g0fix s) :
    c = 'G' ∨ c = '1' ∨ c ∈ s := by
  unfold g0fix at h
  split_ifs at h
  · rw [show "G1".toList ++ s.drop 2 = 'G' :: '1' :: s.drop 2 from rfl] at h
    rcases List.mem_cons.mp h with rfl | h2
    · exact Or.inl rfl
    · rcases List.mem_cons.mp h2 with rfl | h3
      · exact Or.inr (Or.inl rfl)
      · exact Or.inr (Or.inr (List.mem_of_mem_drop h3))
  · rcases List.mem_cons.mp h with rfl | h2
    · exact Or.inl rfl
    · rcases List.mem_cons.mp h2 with rfl | h3
      · exact Or.inr (Or.inl rfl)
      · simp at h3
  · exact Or.inr (Or.inr h)

/-- Per-line processing preserves the no-boundary-character property. -/
theorem procLine_noBound {l : List Char}
    (h : ∀ c ∈ l, isLineBound c = false) :
    ∀ c ∈ procLine l, isLineBound c = false := by
  intro c hc
  rcases mem_g0fix hc with rfl | rfl | h2
  · decide
  · decide
  · exact h c (mem_pyStrip h2)

/-- A prefix occurrence is a substring occurrence. -/
theorem hasSub_of_leadsWith {n h : List Char} (hw : leadsWith n h = true) :
    hasSub n h = true := by
  obtain ⟨t, rfl⟩ := (leadsWith_iff n h).mp hw
  exact (hasSub_iff n _).mpr ⟨[], t, by simp⟩

/-- The injected machine line is detected by the header scan. -/
theorem machineLine_hasMachine (model : List Char) :
    hasMachineLine ("; machine = ".toList ++ model) = true := by
  unfold hasMachineLine
  apply hasSub_of_leadsWith
  have : lowerL ("; machine = ".toList ++ model) =
      mNeedle ++ (" = ".toList ++ lowerL model) := by
    unfold lowerL
    rw [List.map_append]
    rw [show List.map asciiLower "; machine = ".toList =
      mNeedle ++ " = ".toList from by decide]
    rw [List.append_assoc]
  rw [this]
  exact (leadsWith_iff _ _).mpr ⟨_, rfl⟩

/-- `natToDecAux` with a non-empty accumulator is non-empty. -/
theorem natToDecAux_cons_ne_nil :
    ∀ (fuel n : Nat) (a : Char) (acc : List Char),
      natToDecAux fuel n (a :: acc) ≠ [] := by
  intro fuel
  induction fuel with
  | zero => intro n a acc; simp [natToDecAux]
  | succ f ih =>
    intro n a acc
    cases n with
    | zero => simp [natToDecAux]
    | succ n => exact ih ((n + 1) / 10) _ _

/-- `natToDec` is non-empty. -/
theorem natToDec_ne_nil (n : Nat) : natToDec n ≠ [] := by
  unfold natToDec
  split_ifs
  · simp
  · cases n with
    | zero => simp_all
    | succ n => exact natToDecAux_cons_ne_nil n ((n + 1) / 10) _ _

/-- Shared properties of a literal-plus-suffix header line: no boundary
characters, strip-fixed and untouched by the `G0` rewrite. -/
theorem litSuffix_props (lit suffix : List Char)
    (hlit : ∀ c ∈ lit, isLineBound c = false)
    (hhead : pyIsSpace ((lit ++ suffix).headD 'a') = false)
    (hheadG : (lit ++ suffix).headD 'a' ≠ 'G')
    (hsuf1 : suffix ≠ [])
    (hsufws : ∀ c ∈ suffix, pyIsSpace c = false) :
    (∀ c ∈ lit ++ suffix, isLineBound c = false) ∧
      procLine (lit ++ suffix) = lit ++ suffix := by
  constructor
  · intro c hc
    rcases List.mem_append.mp hc with h | h
    · exact hlit c h
    · exact isLineBound_eq_false (hsufws c h)
  · unfold procLine
    rw [pyStrip_eq_self hhead (by
      rw [getLastD_append_ne hsuf1]
      exact hsufws _ (getLastD_mem hsuf1 'a'))]
    exact g0fix_of_head_ne hheadG

/-- The injected XYZ header lines have no boundary characters and are fixed
points of the per-line processing. -/
theorem xyzHeaderLines_props (model : List Char) (printTime : Nat)
    (filamentStr : List Char)
    (hm1 : model ≠ []) (hm2 : ∀ c ∈ model, pyIsSpace c = false)
    (hf1 : filamentStr ≠ []) (hf2 : ∀ c ∈ filamentStr, pyIsSpace c = false) :
    ∀ l ∈ xyzHeaderLines model printTime filamentStr,
      (∀ c ∈ l, isLineBound c = false) ∧ procLine l = l := by
  intro l hl
  have hmach : ("; machine = ".toList ++ model : List Char) = [] ++
      ("; machine = ".toList ++ model) := by simp
  simp only [xyzHeaderLines, List.mem_cons, List.not_mem_nil, or_false] at hl
  rcases hl with rfl | rfl | rfl | rfl | rfl | rfl | rfl | rfl
  · exact litSuffix_props "; machine = ".toList model (by decide)
      (by rw [show ("; machine = ".toList : List Char) =
          ';' :: " machine = ".toList from by decide, List.cons_append,
          List.headD_cons]; decide)
      (by rw [show ("; machine = ".toList : List Char) =
          ';' :: " machine = ".toList from by decide, List.cons_append,
          List.headD_cons]; decide)
      hm1 hm2
  · refine litSuffix_props "; print_time = ".toList (natToDec printTime)
      (by decide)
      (by rw [show ("; print_time = ".toList : List Char) =
          ';' :: " print_time = ".toList from by decide, List.cons_append,
          List.headD_cons]; decide)
      (by rw [show ("; print_time = ".toList : List Char) =
          ';' :: " print_time = ".toList from by decide, List.cons_append,
          List.headD_cons]; decide)
      (natToDec_ne_nil printTime) ?_
    intro d hd
    obtain ⟨k, hk, rfl⟩ := natToDec_mem hd
    exact pyIsSpace_digitChar hk
  · exact litSuffix_props "; total_filament = ".toList filamentStr (by decide)
      (by rw [show ("; total_filament = ".toList : List Char) =
          ';' :: " total_filament = ".toList from by decide, List.cons_append,
          List.headD_cons]; decide)
      (by rw [show ("; total_filament = ".toList : List Char) =
          ';' :: " total_filament = ".toList from by decide, List.cons_append,
          List.headD_cons]; decide)
      hf1 hf2
  · exact ⟨by decide, by decide⟩
  · exact ⟨by decide, by decide⟩
  · exact ⟨by decide, by decide⟩
  · exact ⟨by decide, by decide⟩
  · exact ⟨by simp, by decide⟩

/-- Applying the preprocessor to an already joined, processed and
machine-tagged line list returns it unchanged. -/
theorem preprocess_outer (model : List Char) (printTime : Nat)
    (filamentStr : List Char) (R : List (List Char))
    (hRne : R ≠ [])
    (hRnb : ∀ l ∈ R, ∀ c ∈ l, isLineBound c = false)
    (hRfix : ∀ l ∈ R, procLine l = l)
    (hRma : (R.take 50).any hasMachineLine = true) :
    preprocessGcode model printTime filamentStr (joinNL R ++ ['\n']) =
      joinNL R ++ ['\n'] := by
  unfold preprocessGcode preprocessLines
  dsimp only
  rw [splitlines_joinNL R hRne hRnb, hRma, if_pos rfl,
      (List.map_congr_left hRfix).trans (List.map_id R)]

/-- The result-line list of `_preprocess_gcode` is nonempty, boundary-free,
line-wise fixed and machine-tagged within its first 50 lines, whenever the
model id and the rendered filament value are nonempty and whitespace-free. -/
theorem preprocessLines_props (model : List Char) (printTime : Nat)
    (filamentStr : List Char) (gcode : List Char)
    (hm1 : model ≠ []) (hm2 : ∀ c ∈ model, pyIsSpace c = false)
    (hf1 : filamentStr ≠ []) (hf2 : ∀ c ∈ filamentStr, pyIsSpace c = false) :
    preprocessLines model printTime filamentStr gcode ≠ [] ∧
    (∀ l ∈ preprocessLines model printTime filamentStr gcode,
      ∀ c ∈ l, isLineBound c = false) ∧
    (∀ l ∈ preprocessLines model printTime filamentStr gcode,
      procLine l = l) ∧
    ((preprocessLines model printTime filamentStr gcode).take 50).any
      hasMachineLine = true := by
  unfold preprocessLines
  dsimp only
  by_cases hma : ((splitlines gcode).take 50).any hasMachineLine = true
  · rw [if_pos hma]
    refine ⟨?_, ?_, ?_, ?_⟩
    · have hne : splitlines gcode ≠ [] := by
        intro h0; rw [h0] at hma; simp at hma
      simpa using hne
    · intro l hl c hc
      obtain ⟨l0, hl0, rfl⟩ := List.mem_map.mp hl
      exact procLine_noBound (splitlines_noBound gcode l0 hl0) c hc
    · intro l hl
      obtain ⟨l0, hl0, rfl⟩ := List.mem_map.mp hl
      exact procLine_idem l0
    · rw [List.any_eq_true] at hma ⊢
      obtain ⟨x, hx, hpx⟩ := hma
      refine ⟨procLine x, ?_, hasMachineLine_procLine hpx⟩
      rw [← List.map_take]
      exact List.mem_map_of_mem procLine hx
  · rw [if_neg hma]
    refine ⟨by simp [xyzHeaderLines], ?_, ?_, ?_⟩
    · intro l hl c hc
      rcases List.mem_append.mp hl with h | h
      · exact (xyzHeaderLines_props model printTime filamentStr
          hm1 hm2 hf1 hf2 l h).1 c hc
      · obtain ⟨l0, hl0, rfl⟩ := List.mem_map.mp h
        exact procLine_noBound (splitlines_noBound gcode l0 hl0) c hc
    · intro l hl
      rcases List.mem_append.mp hl with h | h
      · exact (xyzHeaderLines_props model printTime filamentStr
          hm1 hm2 hf1 hf2 l h).2
      · obtain ⟨l0, hl0, rfl⟩ := List.mem_map.mp h
        exact procLine_idem l0
    · rw [List.any_eq_true]
      refine ⟨"; machine = ".toList ++ model, ?_,
        machineLine_hasMachine model⟩
      rw [show xyzHeaderLines model printTime filamentStr ++
          (splitlines gcode).map procLine =
          ("; machine = ".toList ++ model) ::
          (xyzHeaderLines model printTime filamentStr).tail ++
          (splitlines gcode).map procLine from rfl]
      rw [List.cons_append,
          show (List.take 50 (("; machine = ".toList ++ model) ::
            ((xyzHeaderLines model printTime filamentStr).tail ++
             (splitlines gcode).map procLine))) =
          ("; machine = ".toList ++ model) ::
            List.take 49 ((xyzHeaderLines model printTime filamentStr).tail ++
             (splitlines gcode).map procLine) from rfl]
      exact List.mem_cons_self _ _

/-- **C5.** `_preprocess_gcode` is idempotent: feeding its output back in
returns it unchanged, since the injected machine comment satisfies the
header scan, every output line is already stripped and `G0`-rewritten, and
the trailing newline is undone exactly by `splitlines`.  The printer model
id and the rendered filament string are assumed nonempty and free of
whitespace, as every value the source produces is. -/
theorem c5_preprocess_idem (model : List Char) (printTime : Nat)
    (filamentStr : List Char) (gcode : List Char)
    (hm1 : model ≠ []) (hm2 : ∀ c ∈ model, pyIsSpace c = false)
    (hf1 : filamentStr ≠ []) (hf2 : ∀ c ∈ filamentStr, pyIsSpace c = false) :
    preprocessGcode model printTime filamentStr
      (preprocessGcode model printTime filamentStr gcode) =
    preprocessGcode model printTime filamentStr gcode := by
  obtain ⟨h1, h2, h3, h4⟩ :=
    preprocessLines_props model printTime filamentStr gcode hm1 hm2 hf1 hf2
  exact preprocess_outer model printTime filamentStr
    (preprocessLines model printTime filamentStr gcode) h1 h2 h3 h4

theorem c5_preprocess_idem_witness :
    preprocessGcode "dv1MX0A000".toList 60 "12.5".toList
      (preprocessGcode "dv1MX0A000".toList 60 "12.5".toList
        "G0 X1\nM104 S200".toList) =
    preprocessGcode "dv1MX0A000".toList 60 "12.5".toList
      "G0 X1\nM104 S200".toList :=
  c5_preprocess_idem "dv1MX0A000".toList 60 "12.5".toList
    "G0 X1\nM104 S200".toList
    (by decide) (by decide) (by decide) (by decide)

/-- A line starting with a semicolon is a comment line. -/
theorem isCommentLine_semi (X : List Char) :
    isCommentLine (';' :: X) = true := by
  unfold isCommentLine
  rw [show (";".toList : List Char) = [';'] from by decide]
  simp [leadsWith]

/-- **C8.** No non-comment line of the preprocessor output begins with a
`G0` token (prefix `"G0 "` or `"G0\t"`, or the bare line `"G0"`): header
lines are comments or blank, and every other line has gone through the
`G0`-to-`G1` rewrite.  The printer model id and the rendered filament
string are assumed nonempty and free of whitespace, as every value the
source produces is. -/
theorem c8_no_G0_output_line (model : List Char) (printTime : Nat)
    (filamentStr : List Char) (gcode : List Char)
    (hm1 : model ≠ []) (hm2 : ∀ c ∈ model, pyIsSpace c = false)
    (hf1 : filamentStr ≠ []) (hf2 : ∀ c ∈ filamentStr, pyIsSpace c = false) :
    ∀ l ∈ splitlines (preprocessGcode model printTime filamentStr gcode),
      isCommentLine l = false → beginsWithG0Token l = false := by
  obtain ⟨h1, h2, _, _⟩ :=
    preprocessLines_props model printTime filamentStr gcode hm1 hm2 hf1 hf2
  intro l hl hcom
  unfold preprocessGcode at hl
  rw [splitlines_joinNL (preprocessLines model printTime filamentStr gcode)
    h1 h2] at hl
  unfold preprocessLines at hl
  dsimp only at hl
  by_cases hma : ((splitlines gcode).take 50).any hasMachineLine = true
  · rw [if_pos hma] at hl
    obtain ⟨l0, hl0, rfl⟩ := List.mem_map.mp hl
    exact g0fix_no_G0 (pyStrip l0)
  · rw [if_neg hma] at hl
    rcases List.mem_append.mp hl with h | h
    · simp only [xyzHeaderLines, List.mem_cons, List.not_mem_nil,
        or_false] at h
      rcases h with rfl | rfl | rfl | rfl | rfl | rfl | rfl | rfl
      · rw [show ("; machine = ".toList : List Char) =
            ';' :: " machine = ".toList from by decide, List.cons_append,
            isCommentLine_semi] at hcom
        exact absurd hcom (by decide)
      · rw [show ("; print_time = ".toList : List Char) =
            ';' :: " print_time = ".toList from by decide, List.cons_append,
            isCommentLine_semi] at hcom
        exact absurd hcom (by decide)
      · rw [show ("; total_filament = ".toList : List Char) =
            ';' :: " total_filament = ".toList from by decide,
            List.cons_append, isCommentLine_semi] at hcom
        exact absurd hcom (by decide)
      · exact absurd hcom (by decide)
      · exact absurd hcom (by decide)
      · exact absurd hcom (by decide)
      · exact absurd hcom (by decide)
      · decide
    · obtain ⟨l0, hl0, rfl⟩ := List.mem_map.mp h
      exact g0fix_no_G0 (pyStrip l0)

theorem c8_no_G0_output_line_witness :
    beginsWithG0Token "G1 X1".toList = false :=
  c8_no_G0_output_line "dv1MX0A000".toList 60 "12.5".toList
    "G0 X1".toList (by decide) (by decide) (by decide) (by decide)
    "G1 X1".toList (by decide) (by decide)

end XYZ
